import Mathlib

/-!
Shallow embedding of the MyLinker static linker.

Sources embedded here:
* `src/inc/ObjectFormat.h` — the object-file format constants and record layouts;
* `src/inc/Linker.h`       — the `LoadedObject` record;
* `src/src/Linker.cpp`     — `load_object_file`, `layout_and_define_symbols`,
  `apply_relocations`, `write_output`, `link_objects`.

Modelling conventions:
* machine integers (`uint32_t`) are `Nat` with explicit `% U32` wherever the
  C++ arithmetic can wrap; byte cells (`uint8_t`) are `Nat` reduced `% 256`
  at every access;
* `std::set<std::string>` is a duplicate-free `List String` grown by
  membership-guarded insertion (all the source ever does with the set is
  `insert`, `count`/`find` and one final iteration; the iteration is in
  ascending lexicographic byte order, modelled by sorting with `strLe`
  before iterating);
* `std::map<std::string, uint32_t>` is an association list; the code checks
  `count` before every insert, so no key is ever inserted twice and list
  lookup agrees with map lookup;
* fallible stages (`return false` after printing a diagnostic) become
  `Except LinkError`, the error constructor recording which diagnostic the
  source prints; `Except.error` models abort with no output file written;
* file input is a byte list; `std::ifstream::read` is modelled by
  `streamRead`, including the fail-state behaviour of short reads
  (a short read fills the available prefix, leaves the zero-initialised
  remainder, and puts the stream into a failed state in which every later
  read reads nothing).
-/

/-- Modulus of `uint32_t` arithmetic. -/
def U32 : Nat := 4294967296

/-- Constant `LINKER_MAGIC` from `ObjectFormat.h` (0x4C4E4B31, "LNK1"). -/
def LINKER_MAGIC : Nat := 0x4C4E4B31

/-- Constant `SECTION_TEXT` from `ObjectFormat.h`. -/
def SECTION_TEXT : Nat := 0

/-- Constant `SECTION_DATA` from `ObjectFormat.h`. -/
def SECTION_DATA : Nat := 1

/-- Constant `SYMBOL_UNDEFINED` from `ObjectFormat.h` (an import). -/
def SYMBOL_UNDEFINED : Nat := 0

/-- Constant `SYMBOL_DEFINED` from `ObjectFormat.h` (an export). -/
def SYMBOL_DEFINED : Nat := 1

/-- Constant `RELOC_ABSOLUTE` from `ObjectFormat.h`. -/
def RELOC_ABSOLUTE : Nat := 0

/-- Constant `RELOC_RELATIVE` from `ObjectFormat.h`. -/
def RELOC_RELATIVE : Nat := 1

/-- Record `FileHeader` from `ObjectFormat.h`. All fields are `uint32_t`. -/
structure FileHeader where
  magic : Nat
  text_size : Nat
  data_size : Nat
  symtable_count : Nat
  reloc_count : Nat
deriving DecidableEq

/-- Record `SymbolEntry` from `ObjectFormat.h`: `char name[64]`, then three
`uint32_t` fields.  The C++ field `section` is a Lean keyword, hence the
guillemets. -/
structure SymbolEntry where
  name : String
  type : Nat
  «section» : Nat
  offset : Nat
deriving DecidableEq

/-- Record `RelocEntry` from `ObjectFormat.h`: `uint32_t offset`,
`char symbol_name[64]`, `uint32_t type`. -/
structure RelocEntry where
  offset : Nat
  symbol_name : String
  type : Nat
deriving DecidableEq

/-- Record `LoadedObject` from `Linker.h`.  `text_base_addr`/`data_base_addr`
are uninitialised in C++ until Pass 1 assigns them; the model defaults them
to 0 (no claim observes them before layout). -/
structure LoadedObject where
  filename : String
  header : FileHeader
  text_section : List Nat
  data_section : List Nat
  symbols : List SymbolEntry
  relocs : List RelocEntry
  text_base_addr : Nat := 0
  data_base_addr : Nat := 0
deriving DecidableEq

/-- Error outcomes of the pipeline.  The C++ functions print a diagnostic to
`std::cerr` and `return false`; each constructor records which diagnostic
(and its interpolated name) the source prints at the corresponding
`return false` site. -/
inductive LinkError where
  | InvalidFormat (path : String)
  | DuplicateSymbol (name : String)
  | UndefinedSymbol (name : String)
  | RelocationOutOfBounds (filename : String)
deriving DecidableEq

/-- Decidable equality of `Except` results, for evaluating the pipeline on
concrete inputs. -/
instance (ε α : Type) [DecidableEq ε] [DecidableEq α] : DecidableEq (Except ε α) := fun x y =>
  match x, y with
  | .ok a, .ok b => if h : a = b then .isTrue (by rw [h]) else .isFalse (by simp [h])
  | .error a, .error b => if h : a = b then .isTrue (by rw [h]) else .isFalse (by simp [h])
  | .ok _, .error _ => .isFalse (by simp)
  | .error _, .ok _ => .isFalse (by simp)

/-- Byte access into a section buffer: the buffers are `std::vector<uint8_t>`,
so every cell holds a value reduced mod 256; out-of-range reads yield 0
(the source's out-of-range accesses are undefined behaviour — see the C7
analysis — and never occur on the in-bounds paths the theorems cover). -/
def byteAt (l : List Nat) (i : Nat) : Nat := l.getD i 0 % 256

/-- Little-endian read of a 4-byte word, as done by the source's
`memcpy`/`uint32_t*` access into a byte buffer on a little-endian host. -/
def read4 (l : List Nat) (off : Nat) : Nat :=
  byteAt l off + 256 * byteAt l (off + 1) + 65536 * byteAt l (off + 2) +
    16777216 * byteAt l (off + 3)

/-- Little-endian store of a 4-byte word at `off`, as done by the source's
`*code_ptr = value` through a `uint32_t*` into the byte buffer. -/
def write4 (l : List Nat) (off v : Nat) : List Nat :=
  (((l.set off (v % 256)).set (off + 1) (v / 256 % 256)).set
      (off + 2) (v / 65536 % 256)).set (off + 3) (v / 16777216 % 256)

/-! Object loader (`load_object_file`, Linker.cpp lines 12-55). -/

/-- State of a `std::ifstream`: the remaining bytes plus the fail flag.
After a short read the stream is failed and every later `file.read` call
transfers nothing. -/
structure FileStream where
  bytes : List Nat
  failed : Bool
deriving DecidableEq

/-- Model of `file.read(buf, n)` into a zero-initialised buffer of length
`n` (the `resize` calls in the source zero-fill first).  Returns the buffer
contents and the new stream state.  A failed stream reads nothing; a short
read delivers the available prefix, leaves zeros behind, and fails the
stream. -/
def streamRead (s : FileStream) (n : Nat) : List Nat × FileStream :=
  if s.failed then (List.replicate n 0, s)
  else if n ≤ s.bytes.length then
    ((s.bytes.take n).map (· % 256), { bytes := s.bytes.drop n, failed := false })
  else
    (s.bytes.map (· % 256) ++ List.replicate (n - s.bytes.length) 0,
      { bytes := [], failed := true })

/-- Model of reading a `char[64]` field as a C string (the source converts
`sym.name`/`reloc.symbol_name` to `std::string`, which scans to the first
NUL).  A name filling all 64 bytes with no NUL makes the C++ scan run past
the array (undefined behaviour, flagged open in the spec); the model
truncates at the capacity. -/
def parseCName (bytes : List Nat) : String :=
  String.mk ((bytes.takeWhile (fun b => b % 256 != 0)).map (fun b => Char.ofNat (b % 256)))

/-- Parse `count` packed 76-byte `SymbolEntry` records
(64-byte name, then `type`, `section`, `offset`). -/
def parseSymbols : Nat → List Nat → List SymbolEntry
  | 0, _ => []
  | Nat.succ k, bytes =>
    { name := parseCName (bytes.take 64), type := read4 bytes 64,
      «section» := read4 bytes 68, offset := read4 bytes 72 }
      :: parseSymbols k (bytes.drop 76)

/-- Parse `count` packed 72-byte `RelocEntry` records
(`offset`, 64-byte name, `type`). -/
def parseRelocs : Nat → List Nat → List RelocEntry
  | 0, _ => []
  | Nat.succ k, bytes =>
    { offset := read4 bytes 0, symbol_name := parseCName ((bytes.drop 4).take 64),
      type := read4 bytes 68 }
      :: parseRelocs k (bytes.drop 72)

/-- Model of `load_object_file` (Linker.cpp lines 12-55) on the contents of
the file at `path`.  The header (20 bytes) is read first and the magic
checked; then exactly `text_size` code bytes, `data_size` data bytes,
`symtable_count` 76-byte symbol records and `reloc_count` 72-byte relocation
records are read, in that order.  NOTE the source never inspects the stream
state after any read: a short read is NOT detected, the zero-initialised
remainder of each buffer is kept, and the function still returns success
(claim C8).  For a file shorter than the 20-byte header the C++ header
fields beyond the bytes read are uninitialised stack memory; the model reads
them as 0 (no claim depends on that case). -/
def load_object_file (path : String) (contents : List Nat) : Except LinkError LoadedObject :=
  let s0 : FileStream := { bytes := contents, failed := false }
  let r1 := streamRead s0 20
  let hdr := r1.1
  let header : FileHeader :=
    { magic := read4 hdr 0, text_size := read4 hdr 4, data_size := read4 hdr 8,
      symtable_count := read4 hdr 12, reloc_count := read4 hdr 16 }
  if header.magic ≠ LINKER_MAGIC then .error (.InvalidFormat path)
  else
    let r2 := streamRead r1.2 header.text_size
    let r3 := streamRead r2.2 header.data_size
    let r4 := streamRead r3.2 (header.symtable_count * 76)
    let r5 := streamRead r4.2 (header.reloc_count * 72)
    .ok { filename := path, header := header, text_section := r2.1,
          data_section := r3.1, symbols := parseSymbols header.symtable_count r4.1,
          relocs := parseRelocs header.reloc_count r5.1 }

/-! Reachability resolver (`layout_and_define_symbols`, Linker.cpp lines 61-103). -/

/-- Lexicographic strict order on char lists, i.e. `std::string::operator<`
(byte-wise lexicographic comparison; UTF-8 byte order and code-point order
agree). -/
def charsLt : List Char → List Char → Bool
  | [], [] => false
  | [], _ :: _ => true
  | _ :: _, [] => false
  | a :: as, b :: bs =>
    decide (a.toNat < b.toNat) || (a.toNat == b.toNat && charsLt as bs)

/-- Comparator `a <= b` on strings, matching `std::set<std::string>`'s
ascending iteration order. -/
def strLe (a b : String) : Bool := !charsLt b.data a.data

/-- Ordered insertion for `sortStrings`. -/
def insertSorted (x : String) : List String → List String
  | [] => [x]
  | y :: ys => if strLe x y then x :: y :: ys else y :: insertSorted x ys

/-- Insertion sort by `strLe`: the ascending order in which a
`std::set<std::string>` iterates its elements. -/
def sortStrings : List String → List String
  | [] => []
  | x :: xs => insertSorted x (sortStrings xs)

/-- Insertion into the needed-set: `std::set::insert` adds the name only if
absent (the source also guards the Pass-2 insert with `find == end`). -/
def insertName (needed : List String) (n : String) : List String :=
  if n ∈ needed then needed else needed ++ [n]

/-- Test of the inner loop of Pass 1 (lines 75-83): does `obj` define a
symbol whose name is currently needed? -/
def exportsNeeded (needed : List String) (obj : LoadedObject) : Bool :=
  obj.symbols.any (fun sym => sym.type == SYMBOL_DEFINED && decide (sym.name ∈ needed))

/-- Pass 1 (lines 72-84): activate every object that provides a needed
symbol.  Activation of one object during the pass does not influence the
others (the pass only consults `needed`, which it never changes), so the
pass is a pointwise map over the activity vector. -/
def activationPass (objects : List LoadedObject) (needed : List String)
    (active : List Bool) : List Bool :=
  List.zipWith (fun a obj => a || exportsNeeded needed obj) active objects

/-- Pass-2 body for one object: if its activity flag is set, insert all its
relocation symbol names. -/
def demandInsert (acc : List String) (p : Bool × LoadedObject) : List String :=
  if p.1 then p.2.relocs.foldl (fun a r => insertName a r.symbol_name) acc else acc

/-- Pass 2 (lines 87-102): every relocation symbol name of every active
object is inserted into `needed`. -/
def demandPass (objects : List LoadedObject) (active : List Bool)
    (needed : List String) : List String :=
  (active.zip objects).foldl demandInsert needed

/-- Joint state of the dependency-resolution loop: the `needed_symbols` set
and the `object_active` vector. -/
structure ResolveState where
  needed : List String
  active : List Bool
deriving DecidableEq

/-- One iteration of the `while (changed)` loop (lines 68-103): Pass 1 then
Pass 2 (Pass 2 sees the activations Pass 1 just made).  The C++ `changed`
flag is set exactly when an activation or an insertion happened, i.e. exactly
when the state changed (activations only flip `false → true`, insertions only
grow the set). -/
def resolveStep (objects : List LoadedObject) (s : ResolveState) : ResolveState :=
  let active' := activationPass objects s.needed s.active
  { needed := demandPass objects active' s.needed, active := active' }

/-- The `while (changed)` loop, fuelled.  The loop exits when an iteration
changes nothing; `resolveFuel` below is enough fuel for that to happen
(claim C9). -/
def resolveLoop (objects : List LoadedObject) : Nat → ResolveState → ResolveState
  | 0, s => s
  | Nat.succ fuel, s =>
    let s' := resolveStep objects s
    if s' = s then s else resolveLoop objects fuel s'

/-- All symbol names the loop can ever insert: the seed `__START__` plus
every relocation symbol name of every object. -/
def symbolUniverse (objects : List LoadedObject) : List String :=
  "__START__" :: objects.foldr (fun o acc => o.relocs.map (fun r => r.symbol_name) ++ acc) []

/-- Fuel that provably suffices for the loop to reach its fixed point. -/
def resolveFuel (objects : List LoadedObject) : Nat :=
  objects.length + (symbolUniverse objects).length + 1

/-- Initial state: `needed = {"__START__"}` (line 62), all objects inactive
(line 64). -/
def initState (objects : List LoadedObject) : ResolveState :=
  { needed := ["__START__"], active := List.replicate objects.length false }

/-- The dependency-resolution fixed point computed by lines 61-103. -/
def resolve (objects : List LoadedObject) : ResolveState :=
  resolveLoop objects (resolveFuel objects) (initState objects)

/-- Filter step of lines 105-112: keep the objects marked active, in their
original order. -/
def filterByFlags (flags : List Bool) (objects : List LoadedObject) : List LoadedObject :=
  ((flags.zip objects).filter (fun p => p.1)).map (fun p => p.2)

/-! Layout and symbol binding (`layout_and_define_symbols`, lines 105-162). -/

/-- Association-list lookup standing for `std::map::find` /
`std::map::count` on the global symbol table. -/
def lookupTable (table : List (String × Nat)) (name : String) : Option Nat :=
  (table.find? (fun p => p.1 == name)).map (fun p => p.2)

/-- Final address of a defined symbol (lines 137-142): base of the symbol's
section plus its offset, in `uint32_t` arithmetic; a symbol whose `section`
field is neither TEXT nor DATA keeps the initial `final_addr = 0`. -/
def symAddr (obj : LoadedObject) (sym : SymbolEntry) : Nat :=
  if sym.«section» = SECTION_TEXT then (obj.text_base_addr + sym.offset) % U32
  else if sym.«section» = SECTION_DATA then (obj.data_base_addr + sym.offset) % U32
  else 0

/-- Symbol-registration loop of lines 133-151 for one (already based)
object: every DEFINED symbol whose name is needed is inserted into the
global table; a name already present is a fatal duplicate-symbol error.
Symbols not needed are intentionally skipped ("Narrow Scope"). -/
def registerStep (needed : List String) (obj : LoadedObject) :
    Except LinkError (List (String × Nat)) → SymbolEntry →
    Except LinkError (List (String × Nat))
  | .error e, _ => .error e
  | .ok t, sym =>
    if sym.type = SYMBOL_DEFINED ∧ sym.name ∈ needed then
      if (lookupTable t sym.name).isSome then .error (.DuplicateSymbol sym.name)
      else .ok (t ++ [(sym.name, symAddr obj sym)])
    else .ok t

/-- Fold of `registerStep` over the object's symbol table. -/
def registerSymbols (needed : List String) (obj : LoadedObject)
    (table : List (String × Nat)) : Except LinkError (List (String × Nat)) :=
  obj.symbols.foldl (registerStep needed obj) (.ok table)

/-- Layout loop of lines 126-152: assign each live object its
`text_base_addr`/`data_base_addr` from the running `uint32_t` cursors, then
register its needed defined symbols.  Returns the based objects and the
final table. -/
def layoutObjects (needed : List String) (table : List (String × Nat))
    (ctext cdata : Nat) :
    List LoadedObject → Except LinkError (List LoadedObject × List (String × Nat))
  | [] => .ok ([], table)
  | obj :: rest =>
    let obj' := { obj with text_base_addr := ctext, data_base_addr := cdata }
    match registerSymbols needed obj' table with
    | .error e => .error e
    | .ok table' =>
      match layoutObjects needed table' ((ctext + obj.header.text_size) % U32)
          ((cdata + obj.header.data_size) % U32) rest with
      | .error e => .error e
      | .ok (objs, tfin) => .ok (obj' :: objs, tfin)

/-- Running `uint32_t` total of the `text_size` headers (lines 119-122). -/
def totalTextSize (objects : List LoadedObject) : Nat :=
  objects.foldl (fun t o => (t + o.header.text_size) % U32) 0

/-- Running `uint32_t` total of the `data_size` headers (lines 119-122). -/
def totalDataSize (objects : List LoadedObject) : Nat :=
  objects.foldl (fun t o => (t + o.header.data_size) % U32) 0

/-- Output of `layout_and_define_symbols`: the live objects (based), the
global symbol table, the two size totals, and (for the statements below) the
needed-set the resolver computed. -/
structure LayoutResult where
  objects : List LoadedObject
  table : List (String × Nat)
  total_text_size : Nat
  total_data_size : Nat
  needed : List String
deriving DecidableEq

/-- Model of `layout_and_define_symbols` (Linker.cpp lines 57-163):
resolve the live set, filter to it, compute the totals, lay out and bind,
then verify every needed name resolved (lines 154-160; `std::set` iterates
in sorted order, so the first missing name in sorted order is reported). -/
def layout_and_define_symbols (objects : List LoadedObject) : Except LinkError LayoutResult :=
  let fp := resolve objects
  let live := filterByFlags fp.active objects
  let ttext := totalTextSize live
  let tdata := totalDataSize live
  match layoutObjects fp.needed [] 0 ttext live with
  | .error e => .error e
  | .ok (objs, table) =>
    match (sortStrings fp.needed).find? (fun n => (lookupTable table n).isNone) with
    | some missing => .error (.UndefinedSymbol missing)
    | none =>
      .ok { objects := objs, table := table, total_text_size := ttext,
            total_data_size := tdata, needed := fp.needed }

/-! Relocation engine (`apply_relocations`, Linker.cpp lines 165-288). -/

/-- New 4-byte word for one relocation (lines 187-283), on 32-bit words.
For `RELOC_RELATIVE`, `value_to_write` is the `uint32_t` bit pattern of the
`int32_t` difference `target - instruction` (two's complement on values
`< U32`, hence the `+ U32 … % U32`), and the stored word is
`(existing & 0xFC000000) | (value_to_write & 0x03FFFFFF)` (line 273).  For
`RELOC_ABSOLUTE` the whole word is overwritten with the target address
(line 282).  For any other `type` value the source leaves
`value_to_write = 0` and overwrites the word with 0.  No overflow check of
the 26-bit field is performed. -/
def relocWord (target instruction_addr existing rtype : Nat) : Nat :=
  let value_to_write :=
    if rtype = RELOC_ABSOLUTE then target
    else if rtype = RELOC_RELATIVE then (target + U32 - instruction_addr) % U32
    else 0
  if rtype = RELOC_RELATIVE then
    (existing &&& 0xFC000000) ||| (value_to_write &&& 0x03FFFFFF)
  else value_to_write

/-- One relocation record applied to its owning object (lines 168-283):
resolve the symbol (defensive re-check, line 171), bounds-check
`patch_offset + 4 > text_section.size()` — the addition is `uint32_t` and
WRAPS, hence the `% U32` (claim C7) — then patch the 4-byte word in place. -/
def applyReloc (table : List (String × Nat)) (obj : LoadedObject) (r : RelocEntry) :
    Except LinkError LoadedObject :=
  match lookupTable table r.symbol_name with
  | none => .error (.UndefinedSymbol r.symbol_name)
  | some target_addr =>
    if (r.offset + 4) % U32 > obj.text_section.length then
      .error (.RelocationOutOfBounds obj.filename)
    else
      let instruction_addr := (obj.text_base_addr + r.offset) % U32
      let existing := read4 obj.text_section r.offset
      let patched := write4 obj.text_section r.offset
        (relocWord target_addr instruction_addr existing r.type)
      .ok { obj with text_section := patched }

/-- Inner loop of `apply_relocations` for one object: the records are
processed in table order; the first error aborts. -/
def applyRelocsList (table : List (String × Nat)) (obj : LoadedObject) :
    List RelocEntry → Except LinkError LoadedObject
  | [] => .ok obj
  | r :: rs =>
    match applyReloc table obj r with
    | .error e => .error e
    | .ok obj' => applyRelocsList table obj' rs

/-- Model of `apply_relocations` (lines 165-288): each object's relocation
table is applied to its own text section; the first error aborts the run. -/
def apply_relocations (table : List (String × Nat)) :
    List LoadedObject → Except LinkError (List LoadedObject)
  | [] => .ok []
  | obj :: rest =>
    match applyRelocsList table obj obj.relocs with
    | .error e => .error e
    | .ok obj' =>
      match apply_relocations table rest with
      | .error e => .error e
      | .ok rest' => .ok (obj' :: rest')

/-! Image writer and driver (`write_output` lines 290-321, `link_objects`
lines 325-353). -/

/-- Model of `write_output` (lines 290-321): all live text sections in
order, then all live data sections in order, nothing else.  (The
`!empty()` guards in the source skip only zero-length writes and so do not
change the stream.)  File-open failure is an environment condition outside
the byte-level model. -/
def write_output (objects : List LoadedObject) : List Nat :=
  objects.foldl (fun acc obj => acc ++ obj.text_section) [] ++
    objects.foldl (fun acc obj => acc ++ obj.data_section) []

/-- The post-load pipeline of `link_objects` (lines 338-352): layout/bind,
relocate, then — only if both succeeded — write the output image.  An
`Except.error` result means the run aborted before the output file was
opened, i.e. no output bytes exist. -/
def linkModules (objects : List LoadedObject) : Except LinkError (List Nat) :=
  match layout_and_define_symbols objects with
  | .error e => .error e
  | .ok res =>
    match apply_relocations res.table res.objects with
    | .error e => .error e
    | .ok objs => .ok (write_output objs)

/-- Loading loop of `link_objects` (lines 329-336): load each input in
argument order; the first load error aborts. -/
def loadAll : List (String × List Nat) → Except LinkError (List LoadedObject)
  | [] => .ok []
  | (path, contents) :: rest =>
    match load_object_file path contents with
    | .error e => .error e
    | .ok obj =>
      match loadAll rest with
      | .error e => .error e
      | .ok objs => .ok (obj :: objs)

/-- Model of `link_objects` (lines 325-353) on the contents of the input
files. -/
def link_objects (inputs : List (String × List Nat)) : Except LinkError (List Nat) :=
  match loadAll inputs with
  | .error e => .error e
  | .ok objects => linkModules objects

/-! Proof-side definitions: the loop measure/invariants and the
specification-level reachability closure the theorems compare against. -/

/-- Number of `true` flags (proof-side measure for the loop). -/
def countTrue : List Bool → Nat
  | [] => 0
  | b :: bs => (if b then 1 else 0) + countTrue bs

/-- Invariant of the resolution loop: the activity vector tracks the object
list, and the needed-set is duplicate-free with all names drawn from the
finite universe. -/
def InvRS (objects : List LoadedObject) (s : ResolveState) : Prop :=
  s.active.length = objects.length ∧ s.needed.Nodup ∧
    ∀ x ∈ s.needed, x ∈ symbolUniverse objects

/-- Progress measure of the loop: activated objects plus needed names. -/
def measureRS (s : ResolveState) : Nat := countTrue s.active + s.needed.length

/-- Least set of symbol names containing the entry symbol `__START__` and
closed under adding every relocation symbol name of every module that
exports a name already in the set (the relocation-reference to
exported-definition edges of the module graph). -/
inductive NeededSpec (objects : List LoadedObject) : String → Prop
  | start : NeededSpec objects "__START__"
  | demand (obj : LoadedObject) (r : RelocEntry) (s : SymbolEntry)
      (ho : obj ∈ objects) (hr : r ∈ obj.relocs) (hs : s ∈ obj.symbols)
      (ht : s.type = SYMBOL_DEFINED) (hn : NeededSpec objects s.name) :
      NeededSpec objects r.symbol_name

/-- A module is live exactly when it exports a symbol whose name is in the
fixed-point needed set. -/
def LiveSpec (objects : List LoadedObject) (obj : LoadedObject) : Prop :=
  ∃ s ∈ obj.symbols, s.type = SYMBOL_DEFINED ∧ NeededSpec objects s.name

/-- Soundness invariant of the loop: everything recorded is justified by the
specification closure. -/
def SoundRS (objects : List LoadedObject) (s : ResolveState) : Prop :=
  (∀ x ∈ s.needed, NeededSpec objects x) ∧
    (∀ p ∈ s.active.zip objects, p.1 = true → LiveSpec objects p.2)

/-- An object with the layout-assigned base addresses cleared: the part of a
`LoadedObject` the binder does not touch. -/
def stripBases (o : LoadedObject) : LoadedObject :=
  { o with text_base_addr := 0, data_base_addr := 0 }

/-- Two relocation records have non-overlapping 4-byte patch windows
(the spec's no-overlap assumption, §4.4). -/
def disjointWindows (r1 r2 : RelocEntry) : Prop :=
  r1.offset + 4 ≤ r2.offset ∨ r2.offset + 4 ≤ r1.offset

/-- Per-module relocation-patch specification (claim C2): provided the
module's patch windows are pairwise disjoint and in bounds, each patched
word is exactly `relocWord` of the pre-engine word and the resolved target
of that record. -/
def relocPatchSpec (table : List (String × Nat)) (a b : LoadedObject) : Prop :=
  a.relocs.Pairwise disjointWindows →
  (∀ r ∈ a.relocs, r.offset + 4 ≤ a.text_section.length) →
  ∀ r ∈ a.relocs, ∃ target, lookupTable table r.symbol_name = some target ∧
    read4 b.text_section r.offset =
      relocWord target ((a.text_base_addr + r.offset) % U32)
        (read4 a.text_section r.offset) r.type

/-- Per-module frame specification (claim C10): the relocation engine leaves
every field except the text bytes unchanged, keeps the text length, and
leaves every text byte outside all 4-byte patch windows unchanged. -/
def relocFrameSpec (a b : LoadedObject) : Prop :=
  b.filename = a.filename ∧ b.header = a.header ∧ b.data_section = a.data_section ∧
  b.symbols = a.symbols ∧ b.relocs = a.relocs ∧
  b.text_base_addr = a.text_base_addr ∧ b.data_base_addr = a.data_base_addr ∧
  b.text_section.length = a.text_section.length ∧
  ∀ j : Nat, (∀ r ∈ a.relocs, j < r.offset ∨ r.offset + 4 ≤ j) →
    b.text_section.getD j 0 = a.text_section.getD j 0

/-! Concrete modules used to exercise the theorems (the spec's two-module
scenario of §8, a dead third module, duplicate-export graphs, an
out-of-bounds relocation, and a truncated input file). -/

/-- Module A of the spec's scenario: exports `__START__` at code offset 0
and carries one RelativeBranch relocation demanding `helper`. -/
def demoA : LoadedObject :=
  { filename := "a.obj",
    header := { magic := LINKER_MAGIC, text_size := 4, data_size := 0,
                symtable_count := 1, reloc_count := 1 },
    text_section := [0, 0, 0, 0], data_section := [],
    symbols := [{ name := "__START__", type := 1, «section» := 0, offset := 0 }],
    relocs := [{ offset := 0, symbol_name := "helper", type := 1 }] }

/-- Module B of the spec's scenario: exports `helper` at code offset 0. -/
def demoB : LoadedObject :=
  { filename := "b.obj",
    header := { magic := LINKER_MAGIC, text_size := 4, data_size := 0,
                symtable_count := 1, reloc_count := 0 },
    text_section := [0, 0, 0, 0], data_section := [],
    symbols := [{ name := "helper", type := 1, «section» := 0, offset := 0 }],
    relocs := [] }

/-- A dead module: exports only `unused`, reached by nothing. -/
def demoC : LoadedObject :=
  { filename := "c.obj",
    header := { magic := LINKER_MAGIC, text_size := 4, data_size := 0,
                symtable_count := 1, reloc_count := 0 },
    text_section := [9, 9, 9, 9], data_section := [],
    symbols := [{ name := "unused", type := 1, «section» := 0, offset := 0 }],
    relocs := [] }

/-- The three-module demo graph. -/
def demoObjs : List LoadedObject := [demoA, demoB, demoC]

/-- `demoA` after layout (code base 0, data base 8). -/
def demoABased : LoadedObject :=
  { demoA with text_base_addr := 0, data_base_addr := 8 }

/-- `demoB` after layout (code base 4, data base 8). -/
def demoBBased : LoadedObject :=
  { demoB with text_base_addr := 4, data_base_addr := 8 }

/-- The binder's result on `demoObjs` (checked by evaluation in the
witnesses). -/
def demoRes : LayoutResult :=
  { objects := [demoABased, demoBBased],
    table := [("__START__", 0), ("helper", 4)],
    total_text_size := 8, total_data_size := 0,
    needed := ["__START__", "helper"] }

/-- `demoABased` after relocation: the branch word holds delta 4. -/
def demoAPatched : LoadedObject :=
  { demoABased with text_section := [4, 0, 0, 0] }

/-- The relocation engine's output on `demoRes.objects`. -/
def demoPatched : List LoadedObject := [demoAPatched, demoBBased]

/-- Live module exporting `__START__` and also the never-needed `dup`. -/
def dupA : LoadedObject :=
  { filename := "da.obj",
    header := { magic := LINKER_MAGIC, text_size := 4, data_size := 0,
                symtable_count := 2, reloc_count := 1 },
    text_section := [0, 0, 0, 0], data_section := [],
    symbols := [{ name := "__START__", type := 1, «section» := 0, offset := 0 },
                { name := "dup", type := 1, «section» := 0, offset := 2 }],
    relocs := [{ offset := 0, symbol_name := "helper", type := 0 }] }

/-- Live module exporting `helper` and also the never-needed `dup`. -/
def dupB : LoadedObject :=
  { filename := "db.obj",
    header := { magic := LINKER_MAGIC, text_size := 4, data_size := 0,
                symtable_count := 2, reloc_count := 0 },
    text_section := [0, 0, 0, 0], data_section := [],
    symbols := [{ name := "helper", type := 1, «section» := 0, offset := 0 },
                { name := "dup", type := 1, «section» := 0, offset := 2 }],
    relocs := [] }

/-- The binder's (successful) result on `[dupA, dupB]`: the shared `dup`
export is never registered because `dup` is not needed. -/
def dupRes : LayoutResult :=
  { objects := [{ dupA with text_base_addr := 0, data_base_addr := 8 },
                { dupB with text_base_addr := 4, data_base_addr := 8 }],
    table := [("__START__", 0), ("helper", 4)],
    total_text_size := 8, total_data_size := 0,
    needed := ["__START__", "helper"] }

/-- A second exporter of the needed symbol `helper` (same exports as
`demoB`, different file). -/
def dup2C : LoadedObject :=
  { filename := "c2.obj",
    header := { magic := LINKER_MAGIC, text_size := 4, data_size := 0,
                symtable_count := 1, reloc_count := 0 },
    text_section := [0, 0, 0, 0], data_section := [],
    symbols := [{ name := "helper", type := 1, «section» := 0, offset := 0 }],
    relocs := [] }

/-- A relocation whose `patch_offset` is within 4 of 2^32, so that the
source's `patch_offset + 4` bounds check wraps (claim C7). -/
def cexOobReloc : RelocEntry :=
  { offset := 4294967293, symbol_name := "x", type := 0 }

/-- A 4-byte module carrying the wrapping relocation `cexOobReloc`. -/
def cexOobObj : LoadedObject :=
  { filename := "oob.obj",
    header := { magic := LINKER_MAGIC, text_size := 4, data_size := 0,
                symtable_count := 0, reloc_count := 1 },
    text_section := [0, 0, 0, 0], data_section := [],
    symbols := [], relocs := [cexOobReloc] }

/-- A file consisting of exactly a valid 20-byte header that declares
`text_size = 4` but carries no further bytes: truncated relative to its
declared sizes (claim C8). -/
def cexTruncBytes : List Nat :=
  [0x31, 0x4B, 0x4E, 0x4C, 4, 0, 0, 0, 0, 0, 0, 0, 0, 0, 0, 0, 0, 0, 0, 0]

/-- What the loader actually returns for `cexTruncBytes`: success, with the
unread code bytes left as the zero fill of the resized buffer. -/
def cexTruncObj : LoadedObject :=
  { filename := "trunc.obj",
    header := { magic := LINKER_MAGIC, text_size := 4, data_size := 0,
                symtable_count := 0, reloc_count := 0 },
    text_section := [0, 0, 0, 0], data_section := [],
    symbols := [], relocs := [] }

/-! Basic facts about byte buffers and 4-byte words. -/

lemma byteAt_lt (l : List Nat) (i : Nat) : byteAt l i < 256 :=
  Nat.mod_lt _ (by omega)

lemma read4_lt (l : List Nat) (off : Nat) : read4 l off < U32 := by
  have h0 := byteAt_lt l off
  have h1 := byteAt_lt l (off + 1)
  have h2 := byteAt_lt l (off + 2)
  have h3 := byteAt_lt l (off + 3)
  simp only [read4, U32]
  omega

lemma getD_set_self (l : List Nat) (i v : Nat) (h : i < l.length) :
    (l.set i v).getD i 0 = v := by
  rw [List.getD_eq_getElem?_getD, List.getElem?_set]
  simp [h]

lemma getD_set_ne (l : List Nat) (i j v : Nat) (h : i ≠ j) :
    (l.set i v).getD j 0 = l.getD j 0 := by
  rw [List.getD_eq_getElem?_getD, List.getD_eq_getElem?_getD, List.getElem?_set]
  simp [h]

lemma write4_length (l : List Nat) (off v : Nat) :
    (write4 l off v).length = l.length := by
  simp [write4]

lemma getD_write4_outside (l : List Nat) (off v j : Nat)
    (h : j < off ∨ off + 4 ≤ j) : (write4 l off v).getD j 0 = l.getD j 0 := by
  unfold write4
  rw [getD_set_ne _ _ _ _ (by omega), getD_set_ne _ _ _ _ (by omega),
    getD_set_ne _ _ _ _ (by omega), getD_set_ne _ _ _ _ (by omega)]

lemma byteAt_write4_outside (l : List Nat) (off v j : Nat)
    (h : j < off ∨ off + 4 ≤ j) : byteAt (write4 l off v) j = byteAt l j := by
  unfold byteAt
  rw [getD_write4_outside _ _ _ _ h]

lemma read4_write4_same (l : List Nat) (off v : Nat) (h : off + 4 ≤ l.length) :
    read4 (write4 l off v) off = v % U32 := by
  have h0 : (write4 l off v).getD off 0 = v % 256 := by
    unfold write4
    rw [getD_set_ne _ _ _ _ (by omega), getD_set_ne _ _ _ _ (by omega),
      getD_set_ne _ _ _ _ (by omega)]
    exact getD_set_self _ _ _ (by omega)
  have h1 : (write4 l off v).getD (off + 1) 0 = v / 256 % 256 := by
    unfold write4
    rw [getD_set_ne _ _ _ _ (by omega), getD_set_ne _ _ _ _ (by omega)]
    exact getD_set_self _ _ _ (by simp; omega)
  have h2 : (write4 l off v).getD (off + 2) 0 = v / 65536 % 256 := by
    unfold write4
    rw [getD_set_ne _ _ _ _ (by omega)]
    exact getD_set_self _ _ _ (by simp; omega)
  have h3 : (write4 l off v).getD (off + 3) 0 = v / 16777216 % 256 := by
    unfold write4
    exact getD_set_self _ _ _ (by simp; omega)
  simp only [read4, byteAt, h0, h1, h2, h3, U32]
  omega

lemma read4_write4_outside (l : List Nat) (off v off' : Nat)
    (h : off' + 4 ≤ off ∨ off + 4 ≤ off') :
    read4 (write4 l off v) off' = read4 l off' := by
  simp only [read4]
  rw [byteAt_write4_outside _ _ _ _ (by omega), byteAt_write4_outside _ _ _ _ (by omega),
    byteAt_write4_outside _ _ _ _ (by omega), byteAt_write4_outside _ _ _ _ (by omega)]

lemma relocWord_lt (t i e r : Nat) (ht : t < U32) : relocWord t i e r < U32 := by
  have hU : U32 = 2 ^ 32 := by norm_num [U32]
  have hval : ∀ v : Nat, (e &&& 0xFC000000) ||| (v &&& 0x03FFFFFF) < U32 := by
    intro v
    rw [hU]
    refine Nat.or_lt_two_pow ?_ ?_
    · exact Nat.lt_of_le_of_lt Nat.and_le_right (by norm_num)
    · exact Nat.lt_of_le_of_lt Nat.and_le_right (by norm_num)
  simp only [relocWord]
  split_ifs
  all_goals
    first
      | exact hval _
      | exact ht
      | exact Nat.mod_lt _ (by norm_num [U32])
      | simp [U32]

/-! Facts about the needed-set operations. -/

lemma mem_insertSorted (x y : String) (l : List String) :
    y ∈ insertSorted x l ↔ y = x ∨ y ∈ l := by
  induction l with
  | nil => simp [insertSorted]
  | cons a as ih =>
    simp only [insertSorted]
    split_ifs
    · simp [List.mem_cons]
    · simp only [List.mem_cons, ih]
      tauto

lemma mem_sortStrings (y : String) (l : List String) :
    y ∈ sortStrings l ↔ y ∈ l := by
  induction l with
  | nil => simp [sortStrings]
  | cons a as ih => simp [sortStrings, mem_insertSorted, ih]

lemma insertName_eq_append (l : List String) (n : String) :
    ∃ e, insertName l n = l ++ e := by
  unfold insertName
  split_ifs
  · exact ⟨[], by simp⟩
  · exact ⟨[n], rfl⟩

lemma mem_insertName (l : List String) (n x : String) :
    x ∈ insertName l n ↔ x = n ∨ x ∈ l := by
  unfold insertName
  split_ifs with h
  · constructor
    · exact fun hx => Or.inr hx
    · rintro (rfl | hx)
      · exact h
      · exact hx
  · simp [List.mem_append]
    tauto

lemma insertName_nodup (l : List String) (n : String) (h : l.Nodup) :
    (insertName l n).Nodup := by
  unfold insertName
  split_ifs with hm
  · exact h
  · simp [List.nodup_append, h, hm]

/-! Facts about the Pass-2 folds. -/

lemma relocsFold_eq_append : ∀ (rs : List RelocEntry) (acc : List String),
    ∃ e, rs.foldl (fun a r => insertName a r.symbol_name) acc = acc ++ e := by
  intro rs
  induction rs with
  | nil => exact fun acc => ⟨[], by simp⟩
  | cons r rs ih =>
    intro acc
    obtain ⟨e1, he1⟩ := insertName_eq_append acc r.symbol_name
    obtain ⟨e2, he2⟩ := ih (insertName acc r.symbol_name)
    refine ⟨e1 ++ e2, ?_⟩
    simp only [List.foldl_cons]
    rw [he2, he1, List.append_assoc]

lemma relocsFold_mem_acc (rs : List RelocEntry) (acc : List String) (x : String)
    (h : x ∈ acc) : x ∈ rs.foldl (fun a r => insertName a r.symbol_name) acc := by
  obtain ⟨e, he⟩ := relocsFold_eq_append rs acc
  rw [he]
  exact List.mem_append_left _ h

lemma relocsFold_mem : ∀ (rs : List RelocEntry) (acc : List String) (r : RelocEntry),
    r ∈ rs → r.symbol_name ∈ rs.foldl (fun a r => insertName a r.symbol_name) acc := by
  intro rs
  induction rs with
  | nil => intro acc r h; simp at h
  | cons q qs ih =>
    intro acc r h
    simp only [List.foldl_cons]
    rcases List.mem_cons.mp h with rfl | h
    · exact relocsFold_mem_acc _ _ _ ((mem_insertName _ _ _).mpr (Or.inl rfl))
    · exact ih _ _ h

lemma relocsFold_sound : ∀ (rs : List RelocEntry) (acc : List String) (x : String),
    x ∈ rs.foldl (fun a r => insertName a r.symbol_name) acc →
    x ∈ acc ∨ ∃ r ∈ rs, r.symbol_name = x := by
  intro rs
  induction rs with
  | nil => intro acc x h; exact Or.inl h
  | cons q qs ih =>
    intro acc x h
    rcases ih _ _ h with h1 | ⟨r, hr, hx⟩
    · rcases (mem_insertName _ _ _).mp h1 with rfl | h2
      · exact Or.inr ⟨q, List.mem_cons_self _ _, rfl⟩
      · exact Or.inl h2
    · exact Or.inr ⟨r, List.mem_cons_of_mem _ hr, hx⟩

lemma relocsFold_nodup : ∀ (rs : List RelocEntry) (acc : List String), acc.Nodup →
    (rs.foldl (fun a r => insertName a r.symbol_name) acc).Nodup := by
  intro rs
  induction rs with
  | nil => exact fun acc h => h
  | cons q qs ih => exact fun acc h => ih _ (insertName_nodup _ _ h)

lemma demandFold_eq_append : ∀ (ps : List (Bool × LoadedObject)) (acc : List String),
    ∃ e, ps.foldl demandInsert acc = acc ++ e := by
  intro ps
  induction ps with
  | nil => exact fun acc => ⟨[], by simp⟩
  | cons p ps ih =>
    intro acc
    have h1 : ∃ e, demandInsert acc p = acc ++ e := by
      unfold demandInsert
      split_ifs
      · exact relocsFold_eq_append _ _
      · exact ⟨[], by simp⟩
    obtain ⟨e1, he1⟩ := h1
    obtain ⟨e2, he2⟩ := ih (demandInsert acc p)
    refine ⟨e1 ++ e2, ?_⟩
    simp only [List.foldl_cons]
    rw [he2, he1, List.append_assoc]

lemma demandFold_mem_acc (ps : List (Bool × LoadedObject)) (acc : List String)
    (x : String) (h : x ∈ acc) : x ∈ ps.foldl demandInsert acc := by
  obtain ⟨e, he⟩ := demandFold_eq_append ps acc
  rw [he]
  exact List.mem_append_left _ h

lemma demandFold_mem : ∀ (ps : List (Bool × LoadedObject)) (acc : List String)
    (p : Bool × LoadedObject) (r : RelocEntry),
    p ∈ ps → p.1 = true → r ∈ p.2.relocs → r.symbol_name ∈ ps.foldl demandInsert acc := by
  intro ps
  induction ps with
  | nil => intro acc p r h; simp at h
  | cons q qs ih =>
    intro acc p r h hp hr
    simp only [List.foldl_cons]
    rcases List.mem_cons.mp h with rfl | h
    · refine demandFold_mem_acc _ _ _ ?_
      unfold demandInsert
      rw [if_pos hp]
      exact relocsFold_mem _ _ _ hr
    · exact ih _ _ _ h hp hr

lemma demandFold_sound : ∀ (ps : List (Bool × LoadedObject)) (acc : List String)
    (x : String), x ∈ ps.foldl demandInsert acc →
    x ∈ acc ∨ ∃ p ∈ ps, p.1 = true ∧ ∃ r ∈ p.2.relocs, r.symbol_name = x := by
  intro ps
  induction ps with
  | nil => intro acc x h; exact Or.inl h
  | cons q qs ih =>
    intro acc x h
    rcases ih _ _ h with h1 | ⟨p, hp, hpt, r, hr, hx⟩
    · unfold demandInsert at h1
      by_cases hq : q.1 = true
      · rw [if_pos hq] at h1
        rcases relocsFold_sound _ _ _ h1 with h2 | ⟨r, hr, hx⟩
        · exact Or.inl h2
        · exact Or.inr ⟨q, List.mem_cons_self _ _, hq, r, hr, hx⟩
      · rw [if_neg hq] at h1
        exact Or.inl h1
    · exact Or.inr ⟨p, List.mem_cons_of_mem _ hp, hpt, r, hr, hx⟩

lemma demandFold_nodup : ∀ (ps : List (Bool × LoadedObject)) (acc : List String),
    acc.Nodup → (ps.foldl demandInsert acc).Nodup := by
  intro ps
  induction ps with
  | nil => exact fun acc h => h
  | cons q qs ih =>
    intro acc h
    refine ih _ ?_
    unfold demandInsert
    split_ifs
    · exact relocsFold_nodup _ _ h
    · exact h

/-! Monotonicity of the activation pass. -/


lemma countTrue_le_length : ∀ l : List Bool, countTrue l ≤ l.length := by
  intro l
  induction l with
  | nil => simp [countTrue]
  | cons b bs ih =>
    simp only [countTrue, List.length_cons]
    split_ifs <;> omega

lemma activationPass_length (objects : List LoadedObject) (needed : List String)
    (active : List Bool) (h : active.length = objects.length) :
    (activationPass objects needed active).length = objects.length := by
  simp [activationPass, h]

lemma activationPass_count (needed : List String) :
    ∀ (os : List LoadedObject) (a : List Bool), a.length = os.length →
    countTrue a ≤ countTrue (activationPass os needed a) ∧
      (activationPass os needed a ≠ a →
        countTrue a < countTrue (activationPass os needed a)) := by
  intro os
  induction os with
  | nil =>
    intro a h
    have : a = [] := List.length_eq_zero.mp h
    subst this
    simp [activationPass]
  | cons o os ih =>
    intro a h
    match a with
    | [] => simp at h
    | b :: bs =>
      simp only [List.length_cons] at h
      have hih := ih bs (by omega)
      simp only [activationPass, List.zipWith_cons_cons] at *
      constructor
      · have := hih.1
        simp only [countTrue]
        cases b <;> simp <;> omega
      · intro hne
        have hsplit : (b || exportsNeeded needed o) ≠ b ∨
            List.zipWith (fun a obj => a || exportsNeeded needed obj) bs os ≠ bs := by
          by_contra hc
          push_neg at hc
          exact hne (by rw [hc.1, hc.2])
        simp only [countTrue]
        rcases hsplit with h1 | h1
        · have hb : b = false := by
            cases b
            · rfl
            · simp at h1
          subst hb
          simp only [Bool.false_or] at h1 ⊢
          have hc : exportsNeeded needed o = true := by
            cases hc : exportsNeeded needed o
            · exact absurd hc h1
            · rfl
          rw [hc]
          have := hih.1
          simp
          omega
        · have := hih.2 h1
          cases b <;> simp <;> omega

/-! The resolver loop invariant, measure, and fixed point. -/

lemma mem_symbolUniverse (objects : List LoadedObject) (obj : LoadedObject)
    (r : RelocEntry) (ho : obj ∈ objects) (hr : r ∈ obj.relocs) :
    r.symbol_name ∈ symbolUniverse objects := by
  simp only [symbolUniverse, List.mem_cons]
  right
  induction objects with
  | nil => simp at ho
  | cons o os ih =>
    simp only [List.foldr_cons, List.mem_append]
    rcases List.mem_cons.mp ho with rfl | ho
    · exact Or.inl (List.mem_map.mpr ⟨r, hr, rfl⟩)
    · exact Or.inr (ih ho)



lemma inv_resolveStep (objects : List LoadedObject) (s : ResolveState)
    (h : InvRS objects s) : InvRS objects (resolveStep objects s) := by
  obtain ⟨hlen, hnd, hsub⟩ := h
  refine ⟨?_, ?_, ?_⟩
  · exact activationPass_length _ _ _ hlen
  · exact demandFold_nodup _ _ hnd
  · intro x hx
    rcases demandFold_sound _ _ _ hx with h1 | ⟨p, hp, _, r, hr, hx'⟩
    · exact hsub x h1
    · obtain ⟨b, o⟩ := p
      have := List.of_mem_zip hp
      subst hx'
      exact mem_symbolUniverse _ _ _ this.2 hr

lemma nodup_length_le (l u : List String) (hnd : l.Nodup) (hsub : ∀ x ∈ l, x ∈ u) :
    l.length ≤ u.length :=
  (hnd.subperm hsub).length_le

lemma measureRS_le (objects : List LoadedObject) (s : ResolveState)
    (h : InvRS objects s) :
    measureRS s ≤ objects.length + (symbolUniverse objects).length := by
  obtain ⟨hlen, hnd, hsub⟩ := h
  have h1 := countTrue_le_length s.active
  have h2 := nodup_length_le _ _ hnd hsub
  simp only [measureRS]
  omega

lemma measureRS_step (objects : List LoadedObject) (s : ResolveState)
    (h : InvRS objects s) (hne : resolveStep objects s ≠ s) :
    measureRS s < measureRS (resolveStep objects s) := by
  obtain ⟨hlen, _, _⟩ := h
  have hact := activationPass_count s.needed objects s.active hlen
  obtain ⟨e, he⟩ :=
    demandFold_eq_append ((activationPass objects s.needed s.active).zip objects) s.needed
  have hneed : (resolveStep objects s).needed = s.needed ++ e := he
  have hsplit : activationPass objects s.needed s.active ≠ s.active ∨ e ≠ [] := by
    by_contra hc
    push_neg at hc
    refine hne ?_
    have h1 : (resolveStep objects s).active = s.active := hc.1
    have h2 : (resolveStep objects s).needed = s.needed := by
      rw [hneed, hc.2, List.append_nil]
    cases s with
    | mk n a =>
      cases hstep : resolveStep objects ⟨n, a⟩ with
      | mk n' a' =>
        rw [hstep] at h1 h2
        simp at h1 h2
        simp [h1, h2]
  have hmono : s.needed.length ≤ (resolveStep objects s).needed.length := by
    rw [hneed]
    simp
  simp only [measureRS]
  have hact2 : (resolveStep objects s).active = activationPass objects s.needed s.active := rfl
  rcases hsplit with h1 | h1
  · have := hact.2 h1
    rw [hact2]
    omega
  · have h2 : 0 < e.length := List.length_pos.mpr h1
    have h3 : (resolveStep objects s).needed.length = s.needed.length + e.length := by
      rw [hneed, List.length_append]
    have := hact.1
    rw [hact2]
    omega

lemma resolveLoop_invariant (objects : List LoadedObject) (P : ResolveState → Prop)
    (hP : ∀ s, P s → P (resolveStep objects s)) :
    ∀ (fuel : Nat) (s : ResolveState), P s → P (resolveLoop objects fuel s) := by
  intro fuel
  induction fuel with
  | zero => intro s hs; exact hs
  | succ n ih =>
    intro s hs
    simp only [resolveLoop]
    split_ifs with hc
    · exact hs
    · exact ih _ (hP s hs)

lemma resolveLoop_fix (objects : List LoadedObject) :
    ∀ (fuel : Nat) (s : ResolveState), InvRS objects s →
    objects.length + (symbolUniverse objects).length + 1 ≤ measureRS s + fuel →
    resolveStep objects (resolveLoop objects fuel s) = resolveLoop objects fuel s := by
  intro fuel
  induction fuel with
  | zero =>
    intro s hs hb
    have := measureRS_le objects s hs
    omega
  | succ n ih =>
    intro s hs hb
    simp only [resolveLoop]
    split_ifs with hc
    · exact hc
    · exact ih _ (inv_resolveStep _ _ hs)
        (by have := measureRS_step objects s hs hc; omega)

lemma initState_inv (objects : List LoadedObject) : InvRS objects (initState objects) := by
  refine ⟨by simp [initState], by simp [initState], ?_⟩
  intro x hx
  simp only [initState, List.mem_singleton] at hx
  subst hx
  simp [symbolUniverse]

lemma resolve_fix (objects : List LoadedObject) :
    resolveStep objects (resolve objects) = resolve objects := by
  refine resolveLoop_fix objects (resolveFuel objects) (initState objects)
    (initState_inv objects) ?_
  simp only [resolveFuel]
  omega

lemma resolve_inv (objects : List LoadedObject) : InvRS objects (resolve objects) :=
  resolveLoop_invariant objects (InvRS objects) (inv_resolveStep objects) _ _
    (initState_inv objects)

lemma resolveLoop_stable (objects : List LoadedObject) (s : ResolveState)
    (h : resolveStep objects s = s) :
    ∀ fuel : Nat, resolveLoop objects fuel s = s := by
  intro fuel
  induction fuel with
  | zero => rfl
  | succ n ih => simp [resolveLoop, h]

lemma resolveLoop_add (objects : List LoadedObject) :
    ∀ (a b : Nat) (s : ResolveState),
    resolveLoop objects (a + b) s = resolveLoop objects b (resolveLoop objects a s) := by
  intro a
  induction a with
  | zero => intro b s; rw [Nat.zero_add]; rfl
  | succ n ih =>
    intro b s
    rw [Nat.succ_add]
    by_cases hc : resolveStep objects s = s
    · have h1 : resolveLoop objects (Nat.succ (n + b)) s = s := by
        simp [resolveLoop, hc]
      have h2 : resolveLoop objects (Nat.succ n) s = s := by
        simp [resolveLoop, hc]
      rw [h1, h2, resolveLoop_stable objects s hc b]
    · have h1 : resolveLoop objects (Nat.succ (n + b)) s =
          resolveLoop objects (n + b) (resolveStep objects s) := by
        simp [resolveLoop, hc]
      have h2 : resolveLoop objects (Nat.succ n) s =
          resolveLoop objects n (resolveStep objects s) := by
        simp [resolveLoop, hc]
      rw [h1, h2, ih]

/-! The specification-level reachability closure. -/



lemma exportsNeeded_iff (needed : List String) (obj : LoadedObject) :
    exportsNeeded needed obj = true ↔
      ∃ s ∈ obj.symbols, s.type = SYMBOL_DEFINED ∧ s.name ∈ needed := by
  simp [exportsNeeded, List.any_eq_true]


lemma zip_activation_cases (needed : List String) :
    ∀ (a : List Bool) (os : List LoadedObject) (p : Bool × LoadedObject),
    p ∈ (activationPass os needed a).zip os → p.1 = true →
    (∃ q ∈ a.zip os, q.2 = p.2 ∧ q.1 = true) ∨ exportsNeeded needed p.2 = true := by
  intro a
  induction a with
  | nil => intro os p hp; simp [activationPass] at hp
  | cons b bs ih =>
    intro os p hp hpt
    match os with
    | [] => simp [activationPass] at hp
    | o :: os' =>
      simp only [activationPass, List.zipWith_cons_cons, List.zip_cons_cons,
        List.mem_cons] at hp
      rcases hp with rfl | hp
      · simp only at hpt
        cases hb : b
        · subst hb
          simp only [Bool.false_or] at hpt
          exact Or.inr hpt
        · subst hb
          exact Or.inl ⟨(true, o), by simp, rfl, rfl⟩
      · rcases ih os' p hp hpt with ⟨q, hq, hq2⟩ | h
        · exact Or.inl ⟨q, List.mem_cons_of_mem _ hq, hq2⟩
        · exact Or.inr h

lemma sound_resolveStep (objects : List LoadedObject) (s : ResolveState)
    (h : SoundRS objects s) : SoundRS objects (resolveStep objects s) := by
  obtain ⟨hneed, hact⟩ := h
  have hact' : ∀ p ∈ (activationPass objects s.needed s.active).zip objects,
      p.1 = true → LiveSpec objects p.2 := by
    intro p hp hpt
    rcases zip_activation_cases s.needed s.active objects p hp hpt with
      ⟨q, hq, hq2, hq1⟩ | hexp
    · rw [← hq2]
      exact hact q hq hq1
    · obtain ⟨sym, hs, ht, hn⟩ := (exportsNeeded_iff _ _).mp hexp
      exact ⟨sym, hs, ht, hneed _ hn⟩
  refine ⟨?_, hact'⟩
  intro x hx
  rcases demandFold_sound _ _ _ hx with h1 | ⟨p, hp, hpt, r, hr, hx'⟩
  · exact hneed x h1
  · subst hx'
    obtain ⟨sym, hs, ht, hn⟩ := hact' p hp hpt
    exact NeededSpec.demand p.2 r sym (List.of_mem_zip hp).2 hr hs ht hn

lemma resolve_sound (objects : List LoadedObject) : SoundRS objects (resolve objects) := by
  refine resolveLoop_invariant objects (SoundRS objects) (sound_resolveStep objects) _ _ ?_
  constructor
  · intro x hx
    simp only [initState, List.mem_singleton] at hx
    subst hx
    exact NeededSpec.start
  · intro p hp hpt
    have := (List.of_mem_zip hp).1
    have hfalse : p.1 = false := List.eq_of_mem_replicate this
    rw [hfalse] at hpt
    cases hpt

lemma start_mem_resolve (objects : List LoadedObject) :
    "__START__" ∈ (resolve objects).needed := by
  refine resolveLoop_invariant objects (fun s => "__START__" ∈ s.needed) ?_ _ _ ?_
  · intro s hs
    exact demandFold_mem_acc _ _ _ hs
  · simp [initState]

lemma fix_active_eq (objects : List LoadedObject) :
    activationPass objects (resolve objects).needed (resolve objects).active =
      (resolve objects).active :=
  congrArg ResolveState.active (resolve_fix objects)

lemma fix_needed_eq (objects : List LoadedObject) :
    demandPass objects (resolve objects).active (resolve objects).needed =
      (resolve objects).needed := by
  have h := congrArg ResolveState.needed (resolve_fix objects)
  have h2 : (resolveStep objects (resolve objects)).needed =
      demandPass objects (activationPass objects (resolve objects).needed
        (resolve objects).active) (resolve objects).needed := rfl
  rw [h2, fix_active_eq] at h
  exact h

lemma zipWith_or_self (f : LoadedObject → Bool) :
    ∀ (a : List Bool) (os : List LoadedObject),
    List.zipWith (fun b o => b || f o) a os = a →
    ∀ p ∈ a.zip os, f p.2 = true → p.1 = true := by
  intro a
  induction a with
  | nil => intro os _ p hp; simp at hp
  | cons b bs ih =>
    intro os heq p hp hf
    match os with
    | [] => simp at hp
    | o :: os' =>
      simp only [List.zipWith_cons_cons, List.cons.injEq] at heq
      simp only [List.zip_cons_cons, List.mem_cons] at hp
      rcases hp with rfl | hp
      · simp only at hf ⊢
        rw [hf] at heq
        simpa using heq.1.symm
      · exact ih os' heq.2 p hp hf

lemma fix_closure_activation (objects : List LoadedObject) :
    ∀ p ∈ (resolve objects).active.zip objects,
    exportsNeeded (resolve objects).needed p.2 = true → p.1 = true := by
  intro p hp hexp
  exact zipWith_or_self (exportsNeeded (resolve objects).needed) _ _
    (fix_active_eq objects) p hp hexp

lemma fix_closure_demand (objects : List LoadedObject) :
    ∀ p ∈ (resolve objects).active.zip objects, p.1 = true →
    ∀ r ∈ p.2.relocs, r.symbol_name ∈ (resolve objects).needed := by
  intro p hp hpt r hr
  have h := demandFold_mem ((resolve objects).active.zip objects)
    (resolve objects).needed p r hp hpt hr
  have h2 : ((resolve objects).active.zip objects).foldl demandInsert
      (resolve objects).needed = (resolve objects).needed := fix_needed_eq objects
  rw [h2] at h
  exact h

lemma zip_pair_exists (a : List Bool) (os : List LoadedObject)
    (hlen : a.length = os.length) (obj : LoadedObject) (ho : obj ∈ os) :
    ∃ b, (b, obj) ∈ a.zip os := by
  obtain ⟨i, hi, hobj⟩ := List.mem_iff_getElem.mp ho
  have hia : i < a.length := by omega
  refine ⟨a[i], ?_⟩
  have hza : i < (a.zip os).length := by rw [List.length_zip]; omega
  have hmem := List.getElem_mem hza
  rw [List.getElem_zip, hobj] at hmem
  exact hmem

lemma needed_complete (objects : List LoadedObject) :
    ∀ x : String, NeededSpec objects x → x ∈ (resolve objects).needed := by
  intro x h
  induction h with
  | start => exact start_mem_resolve objects
  | demand obj r sym ho hr hs ht hn ih =>
    have hlen : (resolve objects).active.length = objects.length :=
      (resolve_inv objects).1
    obtain ⟨b, hb⟩ := zip_pair_exists _ _ hlen obj ho
    have hexp : exportsNeeded (resolve objects).needed obj = true :=
      (exportsNeeded_iff _ _).mpr ⟨sym, hs, ht, ih⟩
    have hbt : b = true := fix_closure_activation objects (b, obj) hb hexp
    subst hbt
    exact fix_closure_demand objects (true, obj) hb rfl r hr

lemma live_complete (objects : List LoadedObject) :
    ∀ p ∈ (resolve objects).active.zip objects, LiveSpec objects p.2 → p.1 = true := by
  intro p hp hl
  obtain ⟨sym, hs, ht, hn⟩ := hl
  have hexp : exportsNeeded (resolve objects).needed p.2 = true :=
    (exportsNeeded_iff _ _).mpr ⟨sym, hs, ht, needed_complete objects _ hn⟩
  exact fix_closure_activation objects p hp hexp

lemma mem_filterByFlags (flags : List Bool) (objects : List LoadedObject)
    (obj : LoadedObject) :
    obj ∈ filterByFlags flags objects ↔ ∃ p ∈ flags.zip objects, p.1 = true ∧ p.2 = obj := by
  simp only [filterByFlags, List.mem_map, List.mem_filter]
  constructor
  · rintro ⟨p, ⟨hp, hpt⟩, rfl⟩
    exact ⟨p, hp, hpt, rfl⟩
  · rintro ⟨p, hp, hpt, rfl⟩
    exact ⟨p, ⟨hp, hpt⟩, rfl⟩

/-! Facts about the global symbol table and symbol registration. -/

lemma lookupTable_nil (n : String) : lookupTable [] n = none := rfl

lemma lookupTable_append (t ext : List (String × Nat)) (n : String) :
    lookupTable (t ++ ext) n =
      ((lookupTable t n).map some).getD (lookupTable ext n) := by
  induction t with
  | nil => simp [lookupTable]
  | cons p t ih =>
    by_cases hp : p.1 = n
    · simp [lookupTable, List.find?_cons, hp]
    · have hp' : (p.1 == n) = false := by simp [hp]
      simp only [lookupTable, List.cons_append, List.find?_cons, hp'] at *
      exact ih

lemma lookupTable_append_isSome (t ext : List (String × Nat)) (n : String)
    (h : (lookupTable t n).isSome) :
    lookupTable (t ++ ext) n = lookupTable t n := by
  rw [lookupTable_append]
  cases hc : lookupTable t n
  · rw [hc] at h; cases h
  · simp

lemma lookupTable_singleton_self (n : String) (a : Nat) :
    lookupTable [(n, a)] n = some a := by
  simp [lookupTable, List.find?_cons]

lemma lookupTable_append_singleton_isSome (t : List (String × Nat)) (n : String) (a : Nat) :
    (lookupTable (t ++ [(n, a)]) n).isSome := by
  rw [lookupTable_append]
  cases hc : lookupTable t n
  · simp [lookupTable_singleton_self]
  · simp

lemma registerStep_error (needed : List String) (obj : LoadedObject)
    (e : LinkError) (sym : SymbolEntry) :
    registerStep needed obj (.error e) sym = .error e := rfl

lemma regFold_error (needed : List String) (obj : LoadedObject) (e : LinkError) :
    ∀ syms : List SymbolEntry,
    syms.foldl (registerStep needed obj) (.error e) = .error e := by
  intro syms
  induction syms with
  | nil => rfl
  | cons s ss ih => simpa [registerStep] using ih

lemma registerStep_ok_eq (needed : List String) (obj : LoadedObject)
    (table : List (String × Nat)) (sym : SymbolEntry) :
    registerStep needed obj (.ok table) sym =
      if sym.type = SYMBOL_DEFINED ∧ sym.name ∈ needed then
        if (lookupTable table sym.name).isSome then .error (.DuplicateSymbol sym.name)
        else .ok (table ++ [(sym.name, symAddr obj sym)])
      else .ok table := rfl

lemma registerStep_ok_shape (needed : List String) (obj : LoadedObject)
    (table t1 : List (String × Nat)) (sym : SymbolEntry)
    (h : registerStep needed obj (.ok table) sym = .ok t1) :
    t1 = table ∨ t1 = table ++ [(sym.name, symAddr obj sym)] := by
  rw [registerStep_ok_eq] at h
  split_ifs at h
  all_goals
    first
      | exact Or.inl (Except.ok.inj h).symm
      | exact Or.inr (Except.ok.inj h).symm
      | cases h

lemma regFold_ok_append (needed : List String) (obj : LoadedObject) :
    ∀ (syms : List SymbolEntry) (table t' : List (String × Nat)),
    syms.foldl (registerStep needed obj) (.ok table) = .ok t' →
    ∃ ext, t' = table ++ ext := by
  intro syms
  induction syms with
  | nil =>
    intro table t' h
    exact ⟨[], by simpa using (Except.ok.inj h).symm⟩
  | cons s ss ih =>
    intro table t' h
    simp only [List.foldl_cons] at h
    cases hstep : registerStep needed obj (.ok table) s with
    | error e => rw [hstep, regFold_error] at h; cases h
    | ok t1 =>
      rw [hstep] at h
      obtain ⟨ext, hext⟩ := ih t1 t' h
      rcases registerStep_ok_shape needed obj table t1 s hstep with rfl | rfl
      · exact ⟨ext, hext⟩
      · exact ⟨(s.name, symAddr obj s) :: ext, by simpa using hext⟩

lemma registerSymbols_ok_append (needed : List String) (obj : LoadedObject)
    (table t' : List (String × Nat)) (h : registerSymbols needed obj table = .ok t') :
    ∃ ext, t' = table ++ ext :=
  regFold_ok_append needed obj obj.symbols table t' h

lemma regFold_ok_mem (needed : List String) (obj : LoadedObject) :
    ∀ (syms : List SymbolEntry) (table t' : List (String × Nat)) (sym : SymbolEntry),
    syms.foldl (registerStep needed obj) (.ok table) = .ok t' →
    sym ∈ syms → sym.type = SYMBOL_DEFINED → sym.name ∈ needed →
    (lookupTable t' sym.name).isSome := by
  intro syms
  induction syms with
  | nil => intro table t' sym h hm; simp at hm
  | cons s ss ih =>
    intro table t' sym h hm hd hn
    simp only [List.foldl_cons] at h
    cases hstep : registerStep needed obj (.ok table) s with
    | error e => rw [hstep, regFold_error] at h; cases h
    | ok t1 =>
      rw [hstep] at h
      rcases List.mem_cons.mp hm with rfl | hm
      · have h1 : (lookupTable t1 sym.name).isSome := by
          rw [registerStep_ok_eq, if_pos ⟨hd, hn⟩] at hstep
          split_ifs at hstep
          all_goals
            first
              | (rw [← Except.ok.inj hstep]
                 exact lookupTable_append_singleton_isSome table sym.name
                   (symAddr obj sym))
              | cases hstep
        obtain ⟨ext, hext⟩ := regFold_ok_append needed obj ss t1 t' h
        rw [hext, lookupTable_append_isSome _ _ _ h1]
        exact h1
      · exact ih t1 t' sym h hm hd hn

lemma regFold_dup_error (needed : List String) (obj : LoadedObject) :
    ∀ (syms : List SymbolEntry) (table : List (String × Nat)) (sym : SymbolEntry),
    sym ∈ syms → sym.type = SYMBOL_DEFINED → sym.name ∈ needed →
    (lookupTable table sym.name).isSome →
    ∀ t', syms.foldl (registerStep needed obj) (.ok table) ≠ .ok t' := by
  intro syms
  induction syms with
  | nil => intro table sym hm; simp at hm
  | cons s ss ih =>
    intro table sym hm hd hn hsome t' h
    simp only [List.foldl_cons] at h
    rcases List.mem_cons.mp hm with rfl | hm
    · have hstep : registerStep needed obj (.ok table) sym =
          .error (.DuplicateSymbol sym.name) := by
        rw [registerStep_ok_eq, if_pos ⟨hd, hn⟩, if_pos hsome]
      rw [hstep, regFold_error] at h
      cases h
    · cases hstep : registerStep needed obj (.ok table) s with
      | error e => rw [hstep, regFold_error] at h; cases h
      | ok t1 =>
        rw [hstep] at h
        have h1 : (lookupTable t1 sym.name).isSome := by
          rcases registerStep_ok_shape needed obj table t1 s hstep with rfl | rfl
          · exact hsome
          · rw [lookupTable_append_isSome _ _ _ hsome]; exact hsome
        exact ih t1 sym hm hd hn h1 t' h

lemma regFold_error_shape (needed : List String) (obj : LoadedObject) :
    ∀ (syms : List SymbolEntry) (table : List (String × Nat)),
    (∃ t', syms.foldl (registerStep needed obj) (.ok table) = .ok t') ∨
    (∃ m, syms.foldl (registerStep needed obj) (.ok table) =
      .error (.DuplicateSymbol m)) := by
  intro syms
  induction syms with
  | nil => intro table; exact Or.inl ⟨table, rfl⟩
  | cons s ss ih =>
    intro table
    simp only [List.foldl_cons]
    cases hstep : registerStep needed obj (.ok table) s with
    | error e =>
      have he : ∃ m, e = .DuplicateSymbol m := by
        rw [registerStep_ok_eq] at hstep
        split_ifs at hstep
        all_goals
          first
            | exact ⟨s.name, (Except.error.inj hstep).symm⟩
            | cases hstep
      obtain ⟨m, rfl⟩ := he
      rw [regFold_error]
      exact Or.inr ⟨m, rfl⟩
    | ok t1 => exact ih t1

/-! Facts about the layout loop. -/

lemma foldlMod_lt (f : LoadedObject → Nat) :
    ∀ (l : List LoadedObject) (init : Nat), init < U32 →
    l.foldl (fun t o => (t + f o) % U32) init < U32 := by
  intro l
  induction l with
  | nil => intro init h; exact h
  | cons o os ih =>
    intro init h
    simp only [List.foldl_cons]
    exact ih _ (Nat.mod_lt _ (by simp [U32]))

lemma foldlMod_eq_sum (f : LoadedObject → Nat) :
    ∀ (l : List LoadedObject) (init : Nat),
    init + (l.map f).sum < U32 →
    l.foldl (fun t o => (t + f o) % U32) init = init + (l.map f).sum := by
  intro l
  induction l with
  | nil => intro init h; simp
  | cons o os ih =>
    intro init h
    simp only [List.foldl_cons, List.map_cons, List.sum_cons] at *
    have h1 : (init + f o) % U32 = init + f o := Nat.mod_eq_of_lt (by omega)
    rw [h1, ih _ (by omega)]
    omega

lemma totalTextSize_lt (l : List LoadedObject) : totalTextSize l < U32 :=
  foldlMod_lt (fun o => o.header.text_size) l 0 (by simp [U32])

lemma totalDataSize_lt (l : List LoadedObject) : totalDataSize l < U32 :=
  foldlMod_lt (fun o => o.header.data_size) l 0 (by simp [U32])

lemma totalTextSize_eq_sum (l : List LoadedObject)
    (h : (l.map (fun o => o.header.text_size)).sum < U32) :
    totalTextSize l = (l.map (fun o => o.header.text_size)).sum := by
  have := foldlMod_eq_sum (fun o => o.header.text_size) l 0 (by omega)
  simpa [totalTextSize] using this

lemma totalDataSize_eq_sum (l : List LoadedObject)
    (h : (l.map (fun o => o.header.data_size)).sum < U32) :
    totalDataSize l = (l.map (fun o => o.header.data_size)).sum := by
  have := foldlMod_eq_sum (fun o => o.header.data_size) l 0 (by omega)
  simpa [totalDataSize] using this

lemma layoutObjects_ok_spec (needed : List String) :
    ∀ (list : List LoadedObject) (table : List (String × Nat)) (ctext cdata : Nat)
      (objsOut : List LoadedObject) (tableOut : List (String × Nat)),
    layoutObjects needed table ctext cdata list = .ok (objsOut, tableOut) →
    ctext < U32 → cdata < U32 →
    objsOut.map stripBases = list.map stripBases ∧
    (∀ i (hi : i < objsOut.length),
      (objsOut.get ⟨i, hi⟩).text_base_addr =
        (ctext + ((list.take i).map (fun o => o.header.text_size)).sum) % U32 ∧
      (objsOut.get ⟨i, hi⟩).data_base_addr =
        (cdata + ((list.take i).map (fun o => o.header.data_size)).sum) % U32) := by
  intro list
  induction list with
  | nil =>
    intro table ctext cdata objsOut tableOut h _ _
    simp only [layoutObjects] at h
    cases h
    refine ⟨by simp, ?_⟩
    intro i hi
    simp at hi
  | cons obj rest ih =>
    intro table ctext cdata objsOut tableOut h hc hd
    simp only [layoutObjects] at h
    split at h
    next e heq => cases h
    next t1 heq =>
      split at h
      next e2 heq2 => cases h
      next objs1 tfin heq2 =>
        cases h
        have hih := ih t1 ((ctext + obj.header.text_size) % U32)
          ((cdata + obj.header.data_size) % U32) _ _ heq2
          (Nat.mod_lt _ (by simp [U32])) (Nat.mod_lt _ (by simp [U32]))
        constructor
        · simp only [List.map_cons, hih.1]
          rfl
        · intro i hi
          match i with
          | 0 =>
            simp only [List.get, List.take_zero, List.map_nil, List.sum_nil,
              Nat.add_zero]
            exact ⟨(Nat.mod_eq_of_lt hc).symm, (Nat.mod_eq_of_lt hd).symm⟩
          | Nat.succ n =>
            have hn : n < objs1.length := by
              simp only [List.length_cons] at hi
              omega
            have := hih.2 n hn
            simp only [List.get, List.take_succ_cons, List.map_cons, List.sum_cons]
            rw [this.1, this.2, Nat.mod_add_mod, Nat.mod_add_mod]
            constructor
            · congr 1
              omega
            · congr 1
              omega

lemma layoutObjects_ok_table_append (needed : List String) :
    ∀ (list : List LoadedObject) (table : List (String × Nat)) (ctext cdata : Nat)
      (objsOut : List LoadedObject) (tableOut : List (String × Nat)),
    layoutObjects needed table ctext cdata list = .ok (objsOut, tableOut) →
    ∃ ext, tableOut = table ++ ext := by
  intro list
  induction list with
  | nil =>
    intro table ctext cdata objsOut tableOut h
    simp only [layoutObjects] at h
    cases h
    exact ⟨[], by simp⟩
  | cons obj rest ih =>
    intro table ctext cdata objsOut tableOut h
    simp only [layoutObjects] at h
    split at h
    next e heq => cases h
    next t1 heq =>
      split at h
      next e2 heq2 => cases h
      next objs1 tfin heq2 =>
        cases h
        obtain ⟨e1, he1⟩ := registerSymbols_ok_append _ _ _ _ heq
        obtain ⟨e2, he2⟩ := ih t1 _ _ _ _ heq2
        exact ⟨e1 ++ e2, by rw [he2, he1, List.append_assoc]⟩

lemma layoutObjects_ok_lookup (needed : List String) :
    ∀ (list : List LoadedObject) (table : List (String × Nat)) (ctext cdata : Nat)
      (objsOut : List LoadedObject) (tableOut : List (String × Nat))
      (obj : LoadedObject) (sym : SymbolEntry),
    layoutObjects needed table ctext cdata list = .ok (objsOut, tableOut) →
    obj ∈ list → sym ∈ obj.symbols → sym.type = SYMBOL_DEFINED → sym.name ∈ needed →
    (lookupTable tableOut sym.name).isSome := by
  intro list
  induction list with
  | nil =>
    intro table ctext cdata objsOut tableOut obj sym h hm
    simp at hm
  | cons o rest ih =>
    intro table ctext cdata objsOut tableOut obj sym h hm hs hd hn
    simp only [layoutObjects] at h
    split at h
    next e heq => cases h
    next t1 heq =>
      split at h
      next e2 heq2 => cases h
      next objs1 tfin heq2 =>
        cases h
        rcases List.mem_cons.mp hm with rfl | hm
        · have h1 : (lookupTable t1 sym.name).isSome :=
            regFold_ok_mem needed _ _ _ _ sym heq hs hd hn
          obtain ⟨ext, hext⟩ := layoutObjects_ok_table_append needed rest t1 _ _ _ _ heq2
          rw [hext, lookupTable_append_isSome _ _ _ h1]
          exact h1
        · exact ih t1 _ _ _ _ obj sym heq2 hm hs hd hn

lemma layoutObjects_already_defined_error (needed : List String) :
    ∀ (list : List LoadedObject) (table : List (String × Nat)) (ctext cdata : Nat)
      (obj : LoadedObject) (sym : SymbolEntry),
    obj ∈ list → sym ∈ obj.symbols → sym.type = SYMBOL_DEFINED → sym.name ∈ needed →
    (lookupTable table sym.name).isSome →
    ∀ res, layoutObjects needed table ctext cdata list ≠ .ok res := by
  intro list
  induction list with
  | nil =>
    intro table ctext cdata obj sym hm
    simp at hm
  | cons o rest ih =>
    intro table ctext cdata obj sym hm hs hd hn hsome res h
    simp only [layoutObjects] at h
    split at h
    next e heq => cases h
    next t1 heq =>
      split at h
      next e2 heq2 => cases h
      next objs1 tfin heq2 =>
        rcases List.mem_cons.mp hm with rfl | hm
        · exact regFold_dup_error needed _ _ _ sym hs hd hn hsome t1 heq
        · obtain ⟨ext, hext⟩ := registerSymbols_ok_append _ _ _ _ heq
          have h1 : (lookupTable t1 sym.name).isSome := by
            rw [hext, lookupTable_append_isSome _ _ _ hsome]
            exact hsome
          exact ih t1 _ _ obj sym hm hs hd hn h1 _ heq2

lemma layoutObjects_dup_error (needed : List String) :
    ∀ (l1 : List LoadedObject) (o1 : LoadedObject) (l2 : List LoadedObject)
      (table : List (String × Nat)) (ctext cdata : Nat)
      (o2 : LoadedObject) (s1 s2 : SymbolEntry),
    o2 ∈ l2 → s1 ∈ o1.symbols → s2 ∈ o2.symbols →
    s1.type = SYMBOL_DEFINED → s2.type = SYMBOL_DEFINED →
    s1.name = s2.name → s1.name ∈ needed →
    ∀ res, layoutObjects needed table ctext cdata (l1 ++ o1 :: l2) ≠ .ok res := by
  intro l1
  induction l1 with
  | nil =>
    intro o1 l2 table ctext cdata o2 s1 s2 ho2 hs1 hs2 hd1 hd2 hname hn res h
    simp only [List.nil_append, layoutObjects] at h
    split at h
    next e heq => cases h
    next t1 heq =>
      split at h
      next e2 heq2 => cases h
      next objs1 tfin heq2 =>
        have h1 : (lookupTable t1 s1.name).isSome :=
          regFold_ok_mem needed _ _ _ _ s1 heq hs1 hd1 hn
        rw [hname] at h1
        exact layoutObjects_already_defined_error needed l2 t1 _ _ o2 s2
          ho2 hs2 hd2 (hname ▸ hn) h1 _ heq2
  | cons o l1' ih =>
    intro o1 l2 table ctext cdata o2 s1 s2 ho2 hs1 hs2 hd1 hd2 hname hn res h
    simp only [List.cons_append, layoutObjects] at h
    split at h
    next e heq => cases h
    next t1 heq =>
      split at h
      next e2 heq2 => cases h
      next objs1 tfin heq2 =>
        exact ih o1 l2 t1 _ _ o2 s1 s2 ho2 hs1 hs2 hd1 hd2 hname hn _ heq2

lemma layoutObjects_error_shape (needed : List String) :
    ∀ (list : List LoadedObject) (table : List (String × Nat)) (ctext cdata : Nat)
      (e : LinkError),
    layoutObjects needed table ctext cdata list = .error e →
    ∃ m, e = .DuplicateSymbol m := by
  intro list
  induction list with
  | nil =>
    intro table ctext cdata e h
    simp only [layoutObjects] at h
    cases h
  | cons o rest ih =>
    intro table ctext cdata e h
    simp only [layoutObjects] at h
    split at h
    next e1 heq =>
      cases h
      have heq' : List.foldl (registerStep needed
          { o with text_base_addr := ctext, data_base_addr := cdata })
          (Except.ok table) o.symbols = Except.error e := heq
      rcases regFold_error_shape needed
          { o with text_base_addr := ctext, data_base_addr := cdata }
          o.symbols table with ⟨t', ht⟩ | ⟨m, hm⟩
      · rw [ht] at heq'
        cases heq'
      · rw [hm] at heq'
        exact ⟨m, (Except.error.inj heq').symm⟩
    next t1 heq =>
      split at h
      next e2 heq2 =>
        cases h
        exact ih t1 _ _ _ heq2
      next objs1 tfin heq2 => cases h

/-! Facts about the live-object filter and the whole binder stage. -/

lemma filterByFlags_cons (b : Bool) (bs : List Bool) (o : LoadedObject)
    (os : List LoadedObject) :
    filterByFlags (b :: bs) (o :: os) =
      if b then o :: filterByFlags bs os else filterByFlags bs os := by
  cases b <;> simp [filterByFlags, List.filter_cons]

lemma filterByFlags_sublist : ∀ (flags : List Bool) (objs : List LoadedObject),
    (filterByFlags flags objs).Sublist objs := by
  intro flags
  induction flags with
  | nil =>
    intro objs
    simp only [filterByFlags, List.zip_nil_left, List.filter_nil, List.map_nil]
    exact List.nil_sublist objs
  | cons b bs ih =>
    intro objs
    match objs with
    | [] =>
      simp only [filterByFlags, List.zip_nil_right, List.filter_nil, List.map_nil]
      exact List.nil_sublist []
    | o :: os =>
      rw [filterByFlags_cons]
      split_ifs
      · exact List.Sublist.cons₂ o (ih os)
      · exact List.Sublist.cons o (ih os)

lemma layout_ok_inversion (objs : List LoadedObject) (res : LayoutResult)
    (h : layout_and_define_symbols objs = .ok res) :
    layoutObjects (resolve objs).needed [] 0
      (totalTextSize (filterByFlags (resolve objs).active objs))
      (filterByFlags (resolve objs).active objs) = .ok (res.objects, res.table) ∧
    res.total_text_size = totalTextSize (filterByFlags (resolve objs).active objs) ∧
    res.total_data_size = totalDataSize (filterByFlags (resolve objs).active objs) ∧
    res.needed = (resolve objs).needed ∧
    (sortStrings (resolve objs).needed).find?
      (fun n => (lookupTable res.table n).isNone) = none := by
  simp only [layout_and_define_symbols] at h
  split at h
  next e heq => cases h
  next objs1 table1 heq =>
    split at h
    next missing heq2 => cases h
    next heq2 =>
      cases h
      exact ⟨heq, rfl, rfl, rfl, heq2⟩

/-! Behaviour when no module exports the entry symbol. -/

lemma noStart_exportsNeeded (obj : LoadedObject)
    (h : ∀ s ∈ obj.symbols, s.type = SYMBOL_DEFINED → s.name ≠ "__START__") :
    exportsNeeded ["__START__"] obj = false := by
  unfold exportsNeeded
  rw [List.any_eq_false]
  intro sym hs
  intro hc
  rw [Bool.and_eq_true, beq_iff_eq, decide_eq_true_eq] at hc
  obtain ⟨h1, h2⟩ := hc
  simp only [List.mem_singleton] at h2
  exact h sym hs h1 h2

lemma activationPass_noStart :
    ∀ (objs : List LoadedObject),
    (∀ obj ∈ objs, exportsNeeded ["__START__"] obj = false) →
    activationPass objs ["__START__"] (List.replicate objs.length false) =
      List.replicate objs.length false := by
  intro objs
  induction objs with
  | nil => intro _; rfl
  | cons o os ih =>
    intro h
    simp only [List.length_cons, List.replicate_succ, activationPass,
      List.zipWith_cons_cons]
    rw [h o (List.mem_cons_self _ _)]
    have := ih (fun obj hm => h obj (List.mem_cons_of_mem _ hm))
    simp only [activationPass] at this
    rw [this]
    simp

lemma demandFold_all_false : ∀ (ps : List (Bool × LoadedObject)),
    (∀ p ∈ ps, p.1 = false) → ∀ acc, ps.foldl demandInsert acc = acc := by
  intro ps
  induction ps with
  | nil => intro _ acc; rfl
  | cons q qs ih =>
    intro h acc
    simp only [List.foldl_cons]
    have hq : demandInsert acc q = acc := by
      unfold demandInsert
      rw [h q (List.mem_cons_self _ _)]
      simp
    rw [hq]
    exact ih (fun p hp => h p (List.mem_cons_of_mem _ hp)) acc

lemma resolve_noStart (objs : List LoadedObject)
    (h : ∀ obj ∈ objs, ∀ s ∈ obj.symbols, s.type = SYMBOL_DEFINED →
      s.name ≠ "__START__") :
    resolve objs = initState objs := by
  have hact : activationPass objs ["__START__"] (List.replicate objs.length false) =
      List.replicate objs.length false :=
    activationPass_noStart objs (fun obj hm => noStart_exportsNeeded obj (h obj hm))
  have hstep : resolveStep objs (initState objs) = initState objs := by
    have hdem : demandPass objs (List.replicate objs.length false) ["__START__"] =
        ["__START__"] := by
      refine demandFold_all_false _ ?_ _
      intro p hp
      exact List.eq_of_mem_replicate (List.of_mem_zip hp).1
    show ResolveState.mk _ _ = _
    simp only [resolveStep, initState] at *
    rw [hact, hdem]
  exact resolveLoop_stable objs _ hstep (resolveFuel objs)

lemma filterByFlags_false : ∀ (objs : List LoadedObject),
    filterByFlags (List.replicate objs.length false) objs = [] := by
  intro objs
  induction objs with
  | nil => rfl
  | cons o os ih =>
    simp only [List.length_cons, List.replicate_succ]
    rw [filterByFlags_cons, if_neg (by simp)]
    exact ih

/-! Facts about the relocation engine. -/

lemma lookupTable_some_mem (t : List (String × Nat)) (n : String) (a : Nat)
    (h : lookupTable t n = some a) : ∃ p ∈ t, p.2 = a := by
  unfold lookupTable at h
  cases hf : t.find? (fun p => p.1 == n) with
  | none => rw [hf] at h; cases h
  | some p =>
    rw [hf] at h
    exact ⟨p, List.mem_of_find?_eq_some hf, Option.some.inj h⟩

lemma applyReloc_ok_inversion (table : List (String × Nat)) (obj : LoadedObject)
    (r : RelocEntry) (obj' : LoadedObject) (h : applyReloc table obj r = .ok obj') :
    ∃ target, lookupTable table r.symbol_name = some target ∧
      (r.offset + 4) % U32 ≤ obj.text_section.length ∧
      obj' = { obj with text_section := write4 obj.text_section r.offset (relocWord target ((obj.text_base_addr + r.offset) % U32) (read4 obj.text_section r.offset) r.type) } := by
  simp only [applyReloc] at h
  split at h
  next heq => cases h
  next target heq =>
    split_ifs at h with hb
    all_goals
      first
        | exact ⟨target, heq, by omega, (Except.ok.inj h).symm⟩
        | cases h

lemma applyRelocsList_fields (table : List (String × Nat)) :
    ∀ (rs : List RelocEntry) (obj obj' : LoadedObject),
    applyRelocsList table obj rs = .ok obj' →
    obj'.filename = obj.filename ∧ obj'.header = obj.header ∧
    obj'.data_section = obj.data_section ∧ obj'.symbols = obj.symbols ∧
    obj'.relocs = obj.relocs ∧ obj'.text_base_addr = obj.text_base_addr ∧
    obj'.data_base_addr = obj.data_base_addr ∧
    obj'.text_section.length = obj.text_section.length := by
  intro rs
  induction rs with
  | nil =>
    intro obj obj' h
    cases h
    exact ⟨rfl, rfl, rfl, rfl, rfl, rfl, rfl, rfl⟩
  | cons r rs ih =>
    intro obj obj' h
    simp only [applyRelocsList] at h
    split at h
    next e heq => cases h
    next obj1 heq =>
      obtain ⟨target, hlook, hb, hobj1⟩ := applyReloc_ok_inversion _ _ _ _ heq
      have hfields := ih obj1 obj' h
      subst hobj1
      simpa [write4_length] using hfields

lemma applyRelocsList_frame (table : List (String × Nat)) :
    ∀ (rs : List RelocEntry) (obj obj' : LoadedObject),
    applyRelocsList table obj rs = .ok obj' →
    ∀ j : Nat, (∀ r ∈ rs, j < r.offset ∨ r.offset + 4 ≤ j) →
    obj'.text_section.getD j 0 = obj.text_section.getD j 0 := by
  intro rs
  induction rs with
  | nil =>
    intro obj obj' h j _
    cases h
    rfl
  | cons r rs ih =>
    intro obj obj' h j hj
    simp only [applyRelocsList] at h
    split at h
    next e heq => cases h
    next obj1 heq =>
      obtain ⟨target, hlook, hb, hobj1⟩ := applyReloc_ok_inversion _ _ _ _ heq
      have h1 := ih obj1 obj' h j (fun q hq => hj q (List.mem_cons_of_mem _ hq))
      rw [h1, hobj1]
      exact getD_write4_outside _ _ _ _ (hj r (List.mem_cons_self _ _))

lemma applyRelocsList_frame_read4 (table : List (String × Nat))
    (rs : List RelocEntry) (obj obj' : LoadedObject)
    (h : applyRelocsList table obj rs = .ok obj')
    (w : Nat) (hw : ∀ r ∈ rs, w + 4 ≤ r.offset ∨ r.offset + 4 ≤ w) :
    read4 obj'.text_section w = read4 obj.text_section w := by
  simp only [read4, byteAt]
  have h0 := applyRelocsList_frame table rs obj obj' h w
    (fun r hr => by have := hw r hr; omega)
  have h1 := applyRelocsList_frame table rs obj obj' h (w + 1)
    (fun r hr => by have := hw r hr; omega)
  have h2 := applyRelocsList_frame table rs obj obj' h (w + 2)
    (fun r hr => by have := hw r hr; omega)
  have h3 := applyRelocsList_frame table rs obj obj' h (w + 3)
    (fun r hr => by have := hw r hr; omega)
  rw [h0, h1, h2, h3]

lemma applyRelocsList_patch (table : List (String × Nat))
    (htab : ∀ p ∈ table, p.2 < U32) :
    ∀ (rs : List RelocEntry) (obj obj' : LoadedObject),
    applyRelocsList table obj rs = .ok obj' →
    rs.Pairwise disjointWindows →
    (∀ r ∈ rs, r.offset + 4 ≤ obj.text_section.length) →
    ∀ r ∈ rs, ∃ target, lookupTable table r.symbol_name = some target ∧
      read4 obj'.text_section r.offset =
        relocWord target ((obj.text_base_addr + r.offset) % U32)
          (read4 obj.text_section r.offset) r.type := by
  intro rs
  induction rs with
  | nil => intro obj obj' _ _ _ r hr; simp at hr
  | cons r0 rs ih =>
    intro obj obj' h hdisj hbound r hr
    simp only [applyRelocsList] at h
    split at h
    next e heq => cases h
    next obj1 heq =>
      obtain ⟨target0, hlook0, hb0, hobj1⟩ := applyReloc_ok_inversion _ _ _ _ heq
      have hpair := List.pairwise_cons.mp hdisj
      have hlen1 : obj1.text_section.length = obj.text_section.length := by
        rw [hobj1]
        exact write4_length _ _ _
      rcases List.mem_cons.mp hr with rfl | hr
      · refine ⟨target0, hlook0, ?_⟩
        have hframe : read4 obj'.text_section r.offset =
            read4 obj1.text_section r.offset := by
          refine applyRelocsList_frame_read4 table rs obj1 obj' h r.offset ?_
          intro q hq
          exact hpair.1 q hq
        rw [hframe, hobj1]
        have hin : r.offset + 4 ≤ obj.text_section.length :=
          hbound r (List.mem_cons_self _ _)
        rw [read4_write4_same _ _ _ hin]
        obtain ⟨p, hp, hpv⟩ := lookupTable_some_mem _ _ _ hlook0
        have ht : target0 < U32 := hpv ▸ htab p hp
        exact Nat.mod_eq_of_lt (relocWord_lt _ _ _ _ ht)
      · have hih := ih obj1 obj' h hpair.2
          (fun q hq => by rw [hlen1]; exact hbound q (List.mem_cons_of_mem _ hq))
          r hr
        obtain ⟨target, hlook, hres⟩ := hih
        refine ⟨target, hlook, ?_⟩
        rw [hres, hobj1]
        have hdisj0 : disjointWindows r0 r := hpair.1 r hr
        have hread : read4 (write4 obj.text_section r0.offset
            (relocWord target0 ((obj.text_base_addr + r0.offset) % U32)
              (read4 obj.text_section r0.offset) r0.type)) r.offset =
            read4 obj.text_section r.offset := by
          refine read4_write4_outside _ _ _ _ ?_
          unfold disjointWindows at hdisj0
          omega
        rw [hread]

lemma apply_relocations_forall2 (table : List (String × Nat)) :
    ∀ (objs objs' : List LoadedObject),
    apply_relocations table objs = .ok objs' →
    List.Forall₂ (fun a b => applyRelocsList table a a.relocs = .ok b) objs objs' := by
  intro objs
  induction objs with
  | nil =>
    intro objs' h
    cases h
    exact List.Forall₂.nil
  | cons o os ih =>
    intro objs' h
    simp only [apply_relocations] at h
    split at h
    next e heq => cases h
    next o1 heq =>
      split at h
      next e heq2 => cases h
      next os1 heq2 =>
        cases h
        exact List.Forall₂.cons heq (ih os1 heq2)

/-! Facts about the image writer and the loader. -/

lemma foldl_append_eq_flatten (f : LoadedObject → List Nat) :
    ∀ (l : List LoadedObject) (init : List Nat),
    l.foldl (fun acc o => acc ++ f o) init = init ++ (l.map f).flatten := by
  intro l
  induction l with
  | nil => intro init; simp
  | cons o os ih =>
    intro init
    simp only [List.foldl_cons, List.map_cons, List.flatten_cons]
    rw [ih, List.append_assoc]

lemma write_output_eq (objs : List LoadedObject) :
    write_output objs = (objs.map (fun o => o.text_section)).flatten ++
      (objs.map (fun o => o.data_section)).flatten := by
  unfold write_output
  rw [foldl_append_eq_flatten, foldl_append_eq_flatten]
  simp

lemma streamRead_length (s : FileStream) (n : Nat) :
    (streamRead s n).1.length = n := by
  unfold streamRead
  split_ifs with h1 h2
  · simp
  · simp
    omega
  · simp
    omega

lemma parseSymbols_length : ∀ (k : Nat) (bytes : List Nat),
    (parseSymbols k bytes).length = k := by
  intro k
  induction k with
  | zero => intro bytes; rfl
  | succ n ih => intro bytes; simp [parseSymbols, ih]

lemma parseRelocs_length : ∀ (k : Nat) (bytes : List Nat),
    (parseRelocs k bytes).length = k := by
  intro k
  induction k with
  | zero => intro bytes; rfl
  | succ n ih => intro bytes; simp [parseRelocs, ih]

/-! Claim theorems. -/

/-- Claim C9: the fixed-point resolution loop terminates.  The state reached
with the (finite, computable) fuel `resolveFuel` is a genuine fixed point of
the activation-plus-demand iteration — i.e. the loop exits because a full
pass changes nothing — and, equivalently, granting the loop any additional
fuel leaves the result unchanged.  The proof is the spec's monotonicity
argument: `needed` and the activity vector only grow, bounded by the finite
symbol universe and module count. -/
theorem C9_resolution_loop_terminates (objects : List LoadedObject) :
    resolveStep objects (resolve objects) = resolve objects ∧
    ∀ extra : Nat,
      resolveLoop objects (resolveFuel objects + extra) (initState objects) =
        resolve objects := by
  refine ⟨resolve_fix objects, ?_⟩
  intro extra
  rw [resolveLoop_add]
  exact resolveLoop_stable objects _ (resolve_fix objects) extra

/-- Claim C1: reachability-closure correctness.  The needed-set computed by
the resolver is exactly the least set containing `__START__` and closed
under relocation-reference → exported-definition edges (`NeededSpec`); a
module's activity flag is set iff it exports a symbol name in that set
(`LiveSpec`); and every module in the filtered live list is live in that
sense — so a module defining only unreached symbols is excluded. -/
theorem C1_reachability_closure (objects : List LoadedObject) :
    (∀ x : String, x ∈ (resolve objects).needed ↔ NeededSpec objects x) ∧
    (∀ p ∈ (resolve objects).active.zip objects, p.1 = true ↔ LiveSpec objects p.2) ∧
    (∀ obj ∈ filterByFlags (resolve objects).active objects, LiveSpec objects obj) := by
  have hsound := resolve_sound objects
  refine ⟨?_, ?_, ?_⟩
  · intro x
    exact ⟨fun h => hsound.1 x h, fun h => needed_complete objects x h⟩
  · intro p hp
    exact ⟨fun h => hsound.2 p hp h, fun h => live_complete objects p hp h⟩
  · intro obj hm
    obtain ⟨p, hp, hpt, hpe⟩ := (mem_filterByFlags _ _ _).mp hm
    rw [← hpe]
    exact hsound.2 p hp hpt

/-- Witness for C1 on the three-module demo graph: module A's flag is true
iff A is live, and the needed-set membership of `helper` coincides with its
spec-level reachability. -/
theorem C1_reachability_closure_witness :
    ((true, demoA).1 = true ↔ LiveSpec demoObjs demoA) ∧
    ("helper" ∈ (resolve demoObjs).needed ↔ NeededSpec demoObjs "helper") :=
  ⟨(C1_reachability_closure demoObjs).2.1 (true, demoA) (by decide),
    (C1_reachability_closure demoObjs).1 "helper"⟩

/-- Claim C7 (code bug): the relocation bounds check computes
`patch_offset + 4` in `uint32_t` arithmetic, which wraps for
`patch_offset = 2^32 - 3`; the wrapped sum 1 passes the `> size` test even
though the window is far outside the 4-byte code buffer, so no
`RelocationOutOfBounds` error is raised and the source then dereferences
`&text_section[4294967293]` — out of bounds (undefined behaviour; the model's
out-of-range `List.set` is a no-op, whence the unchanged module). -/
theorem C7_wrapped_bounds_check_bug :
    cexOobReloc.offset + 4 > cexOobObj.text_section.length ∧
    applyReloc [("x", 0)] cexOobObj cexOobReloc = .ok cexOobObj := by
  constructor
  · decide
  · decide

/-- Claim C8 (counterexample): a file holding only a valid 20-byte header
that declares 4 code bytes — i.e. truncated relative to its declared sizes —
is loaded SUCCESSFULLY, as a module whose code bytes are the zero fill of
the resized buffer; no `TruncatedFile` (or any) error is raised. -/
theorem C8_truncated_counterexample :
    cexTruncBytes.length < 24 ∧
    load_object_file "trunc.obj" cexTruncBytes = .ok cexTruncObj := by
  constructor
  · decide
  · decide

/-- Claim C8 (amended): the loader performs no short-read detection at all.
Whenever the magic matches, `load_object_file` returns success, and the
module's sections and tables have exactly the declared lengths, the bytes
missing from the file appearing as zeros (the zero fill of the resized
buffers). -/
theorem C8_loader_no_short_read_check (path : String) (contents : List Nat)
    (hmagic : read4 (streamRead { bytes := contents, failed := false } 20).1 0 =
      LINKER_MAGIC) :
    ∃ obj, load_object_file path contents = .ok obj ∧
      obj.text_section.length = obj.header.text_size ∧
      obj.data_section.length = obj.header.data_size ∧
      obj.symbols.length = obj.header.symtable_count ∧
      obj.relocs.length = obj.header.reloc_count := by
  simp only [load_object_file]
  rw [if_neg (by simp [hmagic])]
  refine ⟨_, rfl, ?_, ?_, ?_, ?_⟩
  · exact streamRead_length _ _
  · exact streamRead_length _ _
  · exact parseSymbols_length _ _
  · exact parseRelocs_length _ _

/-- Witness for the amended C8 at the truncated file. -/
theorem C8_loader_no_short_read_check_witness :
    read4 (streamRead { bytes := cexTruncBytes, failed := false } 20).1 0 =
      LINKER_MAGIC ∧
    ∃ obj, load_object_file "trunc.obj" cexTruncBytes = .ok obj ∧
      obj.text_section.length = obj.header.text_size ∧
      obj.data_section.length = obj.header.data_size ∧
      obj.symbols.length = obj.header.symtable_count ∧
      obj.relocs.length = obj.header.reloc_count :=
  ⟨by decide, C8_loader_no_short_read_check "trunc.obj" cexTruncBytes (by decide)⟩

/-- Claim C2: relocation-patch correctness.  For live modules whose patch
windows are pairwise disjoint and in bounds, after the engine succeeds the
4-byte little-endian word at each record's `patch_offset` equals `relocWord`
of the pre-engine word: the target's address for Absolute records
(overwriting all 4 bytes), and
`(existing & 0xFC000000) | ((target - (code_base + patch_offset)) & 0x03FFFFFF)`
for RelativeBranch records — top 6 pre-patch bits preserved, low 26 bits the
byte-distance delta, with no overflow check. -/
theorem C2_relocation_patch_correct (table : List (String × Nat))
    (objs objs' : List LoadedObject)
    (h : apply_relocations table objs = .ok objs')
    (htab : ∀ p ∈ table, p.2 < U32) :
    List.Forall₂ (relocPatchSpec table) objs objs' := by
  have hf := apply_relocations_forall2 table objs objs' h
  refine hf.imp ?_
  intro a b hab hdisj hbound
  exact applyRelocsList_patch table htab a.relocs a b hab hdisj hbound

/-- Witness for C2 on the demo link: the engine's concrete output satisfies
the patch specification pairwise. -/
theorem C2_relocation_patch_correct_witness :
    (∀ p ∈ demoRes.table, p.2 < U32) ∧
    List.Forall₂ (relocPatchSpec demoRes.table) demoRes.objects demoPatched :=
  ⟨by decide, C2_relocation_patch_correct demoRes.table demoRes.objects demoPatched
    (by decide) (by decide)⟩

/-- Claim C10: frame property of the relocation engine.  On success the only
bytes changed are the 4-byte words at the relocations' patch offsets within
each module's own code bytes: every other code byte, all data bytes, and
every name/header/table/base field are identical before and after. -/
theorem C10_relocation_frame (table : List (String × Nat))
    (objs objs' : List LoadedObject)
    (h : apply_relocations table objs = .ok objs') :
    List.Forall₂ relocFrameSpec objs objs' := by
  have hf := apply_relocations_forall2 table objs objs' h
  refine hf.imp ?_
  intro a b hab
  obtain ⟨h1, h2, h3, h4, h5, h6, h7, h8⟩ := applyRelocsList_fields table a.relocs a b hab
  exact ⟨h1, h2, h3, h4, h5, h6, h7, h8,
    fun j hj => applyRelocsList_frame table a.relocs a b hab j hj⟩

/-- Witness for C10 on the demo link. -/
theorem C10_relocation_frame_witness :
    (apply_relocations demoRes.table demoRes.objects = .ok demoPatched) ∧
    List.Forall₂ relocFrameSpec demoRes.objects demoPatched :=
  ⟨by decide, C10_relocation_frame demoRes.table demoRes.objects demoPatched (by decide)⟩

/-- Claim C5 (counterexample): two LIVE modules may both export the same
name without any error, provided that name is not needed: `dupA` and `dupB`
both export `dup`, both are live, and the bind stage succeeds — refuting the
claim that ANY shared Exported name across live modules fails.  The
duplicate check only guards names in the needed set (Linker.cpp line 136
registers a symbol only when needed). -/
theorem C5_duplicate_export_counterexample :
    ((⟨"dup", SYMBOL_DEFINED, SECTION_TEXT, 2⟩ : SymbolEntry) ∈ dupA.symbols) ∧
    ((⟨"dup", SYMBOL_DEFINED, SECTION_TEXT, 2⟩ : SymbolEntry) ∈ dupB.symbols) ∧
    filterByFlags (resolve [dupA, dupB]).active [dupA, dupB] = [dupA, dupB] ∧
    layout_and_define_symbols [dupA, dupB] = .ok dupRes := by
  exact ⟨by decide, by decide, by decide, by decide⟩

/-- Claim C5 (amended): if two distinct live modules each export a symbol
with the same name AND that name is in the needed set, the bind stage fails
with a `DuplicateSymbol` error (no "first wins" tolerance), so each needed
name maps to at most one address. -/
theorem C5_duplicate_needed_export_fails (objs l1 l2 : List LoadedObject)
    (o1 o2 : LoadedObject) (s1 s2 : SymbolEntry)
    (hsplit : filterByFlags (resolve objs).active objs = l1 ++ o1 :: l2)
    (ho2 : o2 ∈ l2)
    (hs1 : s1 ∈ o1.symbols) (hs2 : s2 ∈ o2.symbols)
    (hd1 : s1.type = SYMBOL_DEFINED) (hd2 : s2.type = SYMBOL_DEFINED)
    (hname : s1.name = s2.name) (hn : s1.name ∈ (resolve objs).needed) :
    ∃ m, layout_and_define_symbols objs = .error (.DuplicateSymbol m) := by
  have hne := layoutObjects_dup_error (resolve objs).needed l1 o1 l2 [] 0
    (totalTextSize (l1 ++ o1 :: l2)) o2 s1 s2 ho2 hs1 hs2 hd1 hd2 hname hn
  simp only [layout_and_define_symbols]
  rw [hsplit]
  cases hlo : layoutObjects (resolve objs).needed [] 0
      (totalTextSize (l1 ++ o1 :: l2)) (l1 ++ o1 :: l2) with
  | error e =>
    obtain ⟨m, rfl⟩ :=
      layoutObjects_error_shape (resolve objs).needed (l1 ++ o1 :: l2) [] 0
        (totalTextSize (l1 ++ o1 :: l2)) e hlo
    exact ⟨m, rfl⟩
  | ok pr => exact absurd hlo (hne pr)

/-- Witness for the amended C5: `demoB` and `dup2C` are both live and both
export the needed name `helper`; the bind stage fails with
`DuplicateSymbol`. -/
theorem C5_duplicate_needed_export_fails_witness :
    (filterByFlags (resolve [demoA, demoB, dup2C]).active [demoA, demoB, dup2C] =
      [demoA] ++ demoB :: [dup2C]) ∧
    ∃ m, layout_and_define_symbols [demoA, demoB, dup2C] =
      .error (.DuplicateSymbol m) :=
  ⟨by decide, C5_duplicate_needed_export_fails [demoA, demoB, dup2C] [demoA] [dup2C]
    demoB dup2C ⟨"helper", 1, 0, 0⟩ ⟨"helper", 1, 0, 0⟩ (by decide) (by decide)
    (by decide) (by decide) (by decide) (by decide) rfl (by decide)⟩

/-- Claim C6: undefined-symbol detection.  (1) If no module exports
`__START__`, the whole post-load pipeline fails with
`UndefinedSymbol "__START__"` and produces no output bytes (the `Except`
error aborts before `write_output` is reached).  (2) In general, if after
binding some needed name is absent from the global table, the pipeline
fails with an `UndefinedSymbol` error naming a needed-but-unbound symbol. -/
theorem C6_undefined_symbol_detection (objs : List LoadedObject) :
    ((∀ obj ∈ objs, ∀ s ∈ obj.symbols, s.type = SYMBOL_DEFINED →
        s.name ≠ "__START__") →
      linkModules objs = .error (.UndefinedSymbol "__START__")) ∧
    (∀ (objs1 : List LoadedObject) (table : List (String × Nat)),
      layoutObjects (resolve objs).needed [] 0
        (totalTextSize (filterByFlags (resolve objs).active objs))
        (filterByFlags (resolve objs).active objs) = .ok (objs1, table) →
      (∃ n ∈ (resolve objs).needed, lookupTable table n = none) →
      ∃ m ∈ (resolve objs).needed, lookupTable table m = none ∧
        linkModules objs = .error (.UndefinedSymbol m)) := by
  constructor
  · intro h
    have hres := resolve_noStart objs h
    have hlayout : layout_and_define_symbols objs =
        .error (.UndefinedSymbol "__START__") := by
      simp only [layout_and_define_symbols, hres, initState]
      rw [filterByFlags_false]
      rfl
    simp only [linkModules, hlayout]
  · rintro objs1 table hlo ⟨n, hn, hnone⟩
    cases hf : (sortStrings (resolve objs).needed).find?
        (fun x => (lookupTable table x).isNone) with
    | none =>
      exfalso
      have hcontra := List.find?_eq_none.mp hf n ((mem_sortStrings _ _).mpr hn)
      rw [hnone] at hcontra
      simp at hcontra
    | some m =>
      have hpm := List.find?_some hf
      have hmem : m ∈ (resolve objs).needed :=
        (mem_sortStrings _ _).mp (List.mem_of_find?_eq_some hf)
      have hmn : lookupTable table m = none := by
        simpa using hpm
      refine ⟨m, hmem, hmn, ?_⟩
      have hlayout : layout_and_define_symbols objs =
          .error (.UndefinedSymbol m) := by
        simp only [layout_and_define_symbols, hlo, hf]
      simp only [linkModules, hlayout]

/-- Witness for C6: a graph whose only module exports just `helper` (no
`__START__` anywhere) fails with `UndefinedSymbol "__START__"` and yields no
output bytes. -/
theorem C6_undefined_symbol_detection_witness :
    linkModules [demoB] = .error (.UndefinedSymbol "__START__") :=
  (C6_undefined_symbol_detection [demoB]).1 (by decide)

/-- Claim C3: layout by pure concatenation in load order.  On a successful
bind, writing `live` for the filtered module list: the live list is a
sublist of the inputs (original order restricted to live modules); the i-th
laid-out module differs from the i-th live module only in its base
addresses; its `code_base` is the sum of the code sizes of the live modules
before it; its `data_base` is `total_code_size` plus the sum of the data
sizes of the live modules before it; and the two totals are the plain sums
(all under the assumption that the combined image fits in `uint32_t`, since
the source's cursors are 32-bit). -/
theorem C3_layout_concatenation (objs : List LoadedObject) (res : LayoutResult)
    (hok : layout_and_define_symbols objs = .ok res)
    (hfit : ((filterByFlags (resolve objs).active objs).map
        (fun o => o.header.text_size)).sum +
      ((filterByFlags (resolve objs).active objs).map
        (fun o => o.header.data_size)).sum < U32) :
    (∀ i (hi : i < res.objects.length),
      (res.objects.get ⟨i, hi⟩).text_base_addr =
        ((res.objects.take i).map (fun o => o.header.text_size)).sum ∧
      (res.objects.get ⟨i, hi⟩).data_base_addr =
        res.total_text_size +
          ((res.objects.take i).map (fun o => o.header.data_size)).sum) ∧
    res.objects.map stripBases =
      (filterByFlags (resolve objs).active objs).map stripBases ∧
    (filterByFlags (resolve objs).active objs).Sublist objs ∧
    res.total_text_size = ((filterByFlags (resolve objs).active objs).map
      (fun o => o.header.text_size)).sum ∧
    res.total_data_size = ((filterByFlags (resolve objs).active objs).map
      (fun o => o.header.data_size)).sum := by
  obtain ⟨hlo, httot, hdtot, hneed, hfind⟩ := layout_ok_inversion objs res hok
  have hspec := layoutObjects_ok_spec (resolve objs).needed
    (filterByFlags (resolve objs).active objs) [] 0
    (totalTextSize (filterByFlags (resolve objs).active objs)) res.objects res.table
    hlo (by simp [U32]) (totalTextSize_lt _)
  have hmap := hspec.1
  have htsum : res.total_text_size =
      ((filterByFlags (resolve objs).active objs).map
        (fun o => o.header.text_size)).sum := by
    rw [httot]
    exact totalTextSize_eq_sum _ (by omega)
  have hdsum : res.total_data_size =
      ((filterByFlags (resolve objs).active objs).map
        (fun o => o.header.data_size)).sum := by
    rw [hdtot]
    exact totalDataSize_eq_sum _ (by omega)
  have hlen : res.objects.length =
      (filterByFlags (resolve objs).active objs).length := by
    have := congrArg List.length hmap
    simpa using this
  have htmap : res.objects.map (fun o => o.header.text_size) =
      (filterByFlags (resolve objs).active objs).map (fun o => o.header.text_size) := by
    have h := congrArg (List.map (fun o => o.header.text_size)) hmap
    simpa [List.map_map, Function.comp, stripBases] using h
  have hdmap : res.objects.map (fun o => o.header.data_size) =
      (filterByFlags (resolve objs).active objs).map (fun o => o.header.data_size) := by
    have h := congrArg (List.map (fun o => o.header.data_size)) hmap
    simpa [List.map_map, Function.comp, stripBases] using h
  refine ⟨?_, hmap, filterByFlags_sublist _ _, htsum, hdsum⟩
  intro i hi
  have hidx := hspec.2 i hi
  have htake : ((filterByFlags (resolve objs).active objs).take i).map
      (fun o => o.header.text_size) =
      ((res.objects.take i).map (fun o => o.header.text_size)) := by
    rw [List.map_take, List.map_take, htmap]
  have hdtake : ((filterByFlags (resolve objs).active objs).take i).map
      (fun o => o.header.data_size) =
      ((res.objects.take i).map (fun o => o.header.data_size)) := by
    rw [List.map_take, List.map_take, hdmap]
  have htb : ((res.objects.take i).map (fun o => o.header.text_size)).sum ≤
      (res.objects.map (fun o => o.header.text_size)).sum := by
    rw [List.map_take]
    have := List.sum_take_add_sum_drop (res.objects.map (fun o => o.header.text_size)) i
    omega
  have hdb : ((res.objects.take i).map (fun o => o.header.data_size)).sum ≤
      (res.objects.map (fun o => o.header.data_size)).sum := by
    rw [List.map_take]
    have := List.sum_take_add_sum_drop (res.objects.map (fun o => o.header.data_size)) i
    omega
  rw [htmap] at htb
  rw [hdmap] at hdb
  constructor
  · rw [hidx.1, htake]
    rw [Nat.zero_add]
    exact Nat.mod_eq_of_lt (by omega)
  · rw [httot, hidx.2, hdtake, totalTextSize_eq_sum _ (by omega)]
    exact Nat.mod_eq_of_lt (by omega)

/-- Witness for C3 on the demo graph: the binder's hypotheses hold and the
live list is a sublist of the inputs. -/
theorem C3_layout_concatenation_witness :
    (layout_and_define_symbols demoObjs = .ok demoRes) ∧
    (filterByFlags (resolve demoObjs).active demoObjs).Sublist demoObjs :=
  ⟨by decide, (C3_layout_concatenation demoObjs demoRes (by decide) (by decide)).2.2.1⟩

lemma apply_relocations_maps (table : List (String × Nat))
    (objs objs' : List LoadedObject) (h : apply_relocations table objs = .ok objs') :
    objs'.map (fun o => o.text_section.length) =
      objs.map (fun o => o.text_section.length) ∧
    objs'.map (fun o => o.data_section) = objs.map (fun o => o.data_section) := by
  have hf := apply_relocations_forall2 table objs objs' h
  clear h
  induction hf with
  | nil => exact ⟨rfl, rfl⟩
  | cons hab htail ih =>
    rename_i a b l1 l2
    obtain ⟨h1, h2, h3, h4, h5, h6, h7, h8⟩ := applyRelocsList_fields table a.relocs a b hab
    simp only [List.map_cons]
    exact ⟨by rw [h8, ih.1], by rw [h3, ih.2]⟩

lemma flatten_length_sum (f : LoadedObject → List Nat) (l : List LoadedObject) :
    ((l.map f).flatten).length = (l.map (fun o => (f o).length)).sum := by
  rw [List.length_flatten, List.map_map]
  rfl

/-- Claim C4: the output image is the exact concatenation of the live
modules' patched code bytes in load order followed by their data bytes in
load order — no header, padding or other bytes — and its length is
`total_text_size + total_data_size`.  (The data bytes are moreover
bit-identical to the live input modules' data bytes.)  The size hypotheses
are the loader's invariant that section lengths match the header fields,
and that the image fits in the 32-bit totals. -/
theorem C4_flat_image (objs : List LoadedObject) (res : LayoutResult)
    (objs' : List LoadedObject)
    (hlay : layout_and_define_symbols objs = .ok res)
    (happ : apply_relocations res.table res.objects = .ok objs')
    (hsizes : ∀ o ∈ objs, o.text_section.length = o.header.text_size ∧
      o.data_section.length = o.header.data_size)
    (hfit : ((filterByFlags (resolve objs).active objs).map
        (fun o => o.header.text_size)).sum +
      ((filterByFlags (resolve objs).active objs).map
        (fun o => o.header.data_size)).sum < U32) :
    linkModules objs = .ok ((objs'.map (fun o => o.text_section)).flatten ++
      (objs'.map (fun o => o.data_section)).flatten) ∧
    objs'.map (fun o => o.data_section) =
      (filterByFlags (resolve objs).active objs).map (fun o => o.data_section) ∧
    ((objs'.map (fun o => o.text_section)).flatten ++
      (objs'.map (fun o => o.data_section)).flatten).length =
      res.total_text_size + res.total_data_size := by
  obtain ⟨hlo, httot, hdtot, hneed, hfind⟩ := layout_ok_inversion objs res hlay
  have hspec := layoutObjects_ok_spec (resolve objs).needed
    (filterByFlags (resolve objs).active objs) [] 0
    (totalTextSize (filterByFlags (resolve objs).active objs)) res.objects res.table
    hlo (by simp [U32]) (totalTextSize_lt _)
  have hmap := hspec.1
  have hsub := (filterByFlags_sublist (resolve objs).active objs).subset
  have hmaps := apply_relocations_maps res.table res.objects objs' happ
  have hdata_res : res.objects.map (fun o => o.data_section) =
      (filterByFlags (resolve objs).active objs).map (fun o => o.data_section) := by
    have h := congrArg (List.map (fun o => o.data_section)) hmap
    simpa [List.map_map, Function.comp, stripBases] using h
  have htlen_res : res.objects.map (fun o => o.text_section.length) =
      (filterByFlags (resolve objs).active objs).map (fun o => o.text_section.length) := by
    have h := congrArg (List.map (fun o => o.text_section.length)) hmap
    simpa [List.map_map, Function.comp, stripBases] using h
  have hdata : objs'.map (fun o => o.data_section) =
      (filterByFlags (resolve objs).active objs).map (fun o => o.data_section) :=
    hmaps.2.trans hdata_res
  refine ⟨?_, hdata, ?_⟩
  · simp only [linkModules, hlay, happ]
    rw [write_output_eq]
  · rw [List.length_append, flatten_length_sum, flatten_length_sum]
    have htext_live : (filterByFlags (resolve objs).active objs).map
        (fun o => o.text_section.length) =
        (filterByFlags (resolve objs).active objs).map
          (fun o => o.header.text_size) :=
      List.map_congr_left (fun o ho => (hsizes o (hsub ho)).1)
    have hdata_live : (filterByFlags (resolve objs).active objs).map
        (fun o => o.data_section.length) =
        (filterByFlags (resolve objs).active objs).map
          (fun o => o.header.data_size) :=
      List.map_congr_left (fun o ho => (hsizes o (hsub ho)).2)
    have hdlen : objs'.map (fun o => o.data_section.length) =
        (filterByFlags (resolve objs).active objs).map
          (fun o => o.data_section.length) := by
      have h := congrArg (List.map List.length) hdata
      simpa [List.map_map, Function.comp] using h
    rw [hmaps.1, htlen_res, htext_live, hdlen, hdata_live]
    rw [httot, hdtot, totalTextSize_eq_sum _ (by omega),
      totalDataSize_eq_sum _ (by omega)]

/-- Witness for C4 on the demo graph: the image is the 8 concatenated code
bytes with total sizes 8 + 0. -/
theorem C4_flat_image_witness :
    (layout_and_define_symbols demoObjs = .ok demoRes) ∧
    (apply_relocations demoRes.table demoRes.objects = .ok demoPatched) ∧
    ((demoPatched.map (fun o => o.text_section)).flatten ++
      (demoPatched.map (fun o => o.data_section)).flatten).length =
      demoRes.total_text_size + demoRes.total_data_size :=
  ⟨by decide, by decide,
    (C4_flat_image demoObjs demoRes demoPatched (by decide) (by decide) (by decide)
      (by decide)).2.2⟩
